import Mathlib

/-!
Verification of the codec/container subsystem of the meshoptimizer Python
package (modules `arrayutils.py`, `ziputils.py`, `data.py`, `__init__.py`).

The Python code is shallowly embedded:
* byte strings become `List Nat` (each entry one byte; the opaque compressed
  payload produced by the external codec is a list of machine words),
* numpy arrays of a supported dtype become `NDArray` (a shape, a dtype tag and
  a flat row-major list of integer-valued scalars; the only dtypes exercised by
  the container logic are the native `float32` and integer dtypes, and the
  pipeline never alters `float32` values, so an integer carrier is faithful),
* JSON text produced by `json.dumps` and consumed by `json.loads` is modelled
  by an executable serializer `Json.dumps` and an executable fueled parser,
* fallible Python functions become functions into `Except Err _`, where `Err`
  mirrors the spec's error taxonomy (ValidationError = ValueError,
  NotFoundError = FileNotFoundError, FormatError = struct.error / malformed
  JSON, EncodingError / DecodingError = the RuntimeErrors of `arrayutils.py`,
  and the aggregate IOError wrapper of `ziputils.py` keeps its cause),
* the file system returns exactly the written bytes, and a zip archive is the
  ordered list of its entries (`zipfile` reads resolve a name to the last
  entry carrying it, as `ZipFile.NameToInfo` does).
-/

/-! ### Bytes and plain ASCII strings -/

/-- Byte strings (`bytes` in Python) are lists of naturals; framing bytes are
below 256, while entries of the opaque codec payload are machine words. -/
abbrev Bytes := List Nat

/-- Byte list of a Lean string literal (ASCII in all uses). -/
def strB (s : String) : Bytes := s.toList.map Char.toNat

/-- Byte that needs no JSON string escaping: printable ASCII other than the
quote (34) and the backslash (92). -/
def plainByte (b : Nat) : Prop := 32 ≤ b ∧ b < 127 ∧ b ≠ 34 ∧ b ≠ 92

instance (b : Nat) : Decidable (plainByte b) := by unfold plainByte; infer_instance

/-- Byte string every byte of which is plain. -/
def plainBytes (s : Bytes) : Prop := ∀ b ∈ s, plainByte b

instance (s : Bytes) : Decidable (plainBytes s) := by
  unfold plainBytes; exact List.decidableBAll _ s

/-! ### Binary logarithm by fuel (kernel-reducible) -/

/-- Fueled floor of the binary logarithm. -/
def natLog2F : Nat → Nat → Nat
  | 0, _ => 0
  | f + 1, n => if n < 2 then 0 else 1 + natLog2F f (n / 2)

/-- Floor of the binary logarithm; fuel `n` always suffices. -/
def natLog2 (n : Nat) : Nat := natLog2F n n

theorem natLog2F_spec : ∀ f n, n ≤ f → 1 ≤ n →
    2 ^ natLog2F f n ≤ n ∧ n < 2 ^ (natLog2F f n + 1) := by
  intro f
  induction f with
  | zero => intro n hn h1; omega
  | succ f ih =>
    intro n hn h1
    by_cases h2 : n < 2
    · have : n = 1 := by omega
      subst this
      simp [natLog2F]
    · have hrec := ih (n / 2) (by omega) (by omega)
      have hle : 2 ^ natLog2F f (n / 2) ≤ n / 2 := hrec.1
      have hlt : n / 2 < 2 ^ (natLog2F f (n / 2) + 1) := hrec.2
      simp only [natLog2F, if_neg h2]
      constructor
      · calc 2 ^ (1 + natLog2F f (n / 2)) = 2 * 2 ^ natLog2F f (n / 2) := by
              rw [pow_add, pow_one]
          _ ≤ 2 * (n / 2) := by omega
          _ ≤ n := by omega
      · have : 2 ^ (natLog2F f (n / 2) + 1 + 1) = 2 * 2 ^ (natLog2F f (n / 2) + 1) := by
          rw [pow_succ]; ring
        have : n < 2 * 2 ^ (natLog2F f (n / 2) + 1) := by omega
        calc n < 2 * 2 ^ (natLog2F f (n / 2) + 1) := this
          _ = 2 ^ (1 + natLog2F f (n / 2) + 1) := by rw [pow_add, pow_one]; ring

theorem natLog2_le (n : Nat) (h1 : 1 ≤ n) : 2 ^ natLog2 n ≤ n :=
  (natLog2F_spec n n le_rfl h1).1

theorem natLog2_lt (n : Nat) (h1 : 1 ≤ n) : n < 2 ^ (natLog2 n + 1) :=
  (natLog2F_spec n n le_rfl h1).2

/-! ### The float32 value model for integer data

`numpy.ndarray.astype(np.float32)` rounds an integer to the nearest value
with a 24-bit significand (round half to even); every integer of magnitude at
most `2 ^ 24` is exactly representable, and every `int64` value converts to a
finite, integral `float32` value.  `astype` back to an integer dtype truncates
(the identity on integral values) and reduces modulo `2 ^ width` into the
signed range, the usual two's-complement wrap of the C cast numpy performs. -/

/-- Nearest multiple of `step`, expressed as a multiplier, with ties broken
toward the even multiplier (the significand-level rounding of IEEE 754). -/
def quantizeHalfEven (n step : Nat) : Nat :=
  if n % step < step / 2 then n / step
  else if step / 2 < n % step then n / step + 1
  else if n / step % 2 = 0 then n / step else n / step + 1

/-- Rounding of an integer to the nearest float32-representable value
(round half to even), as performed by `astype(np.float32)` on integer data. -/
def roundF32Int (v : Int) : Int :=
  if v.natAbs ≤ 2 ^ 24 then v
  else
    v.sign *
      (quantizeHalfEven v.natAbs (2 ^ (natLog2 v.natAbs - 23)) *
        2 ^ (natLog2 v.natAbs - 23) : Nat)

/-- Exactly representable integers are fixed by float32 rounding. -/
theorem roundF32Int_eq_of_le (v : Int) (h : v.natAbs ≤ 2 ^ 24) : roundF32Int v = v := by
  unfold roundF32Int
  rw [if_pos h]

theorem quantizeHalfEven_close (n step : Nat) (hpos : 0 < step) (heven : step % 2 = 0) :
    n ≤ quantizeHalfEven n step * step + step / 2 ∧
      quantizeHalfEven n step * step ≤ n + step / 2 := by
  have hrlt : n % step < step := Nat.mod_lt _ hpos
  obtain ⟨A, hA⟩ : ∃ A, n / step * step = A := ⟨_, rfl⟩
  obtain ⟨B, hB⟩ : ∃ B, (n / step + 1) * step = B := ⟨_, rfl⟩
  have hdm : A + n % step = n := by rw [← hA, Nat.mul_comm]; exact Nat.div_add_mod n step
  have hsucc : B = A + step := by rw [← hA, ← hB, Nat.succ_mul]
  unfold quantizeHalfEven
  split_ifs <;> simp only [hA, hB] <;> omega

/-- Relative error of float32 rounding of an integer is at most `2 ^ (-24)`:
the absolute error scaled by `2 ^ 24` does not exceed the magnitude. -/
theorem roundF32Int_close (v : Int) :
    2 ^ 24 * (roundF32Int v - v).natAbs ≤ v.natAbs := by
  unfold roundF32Int
  by_cases h : v.natAbs ≤ 2 ^ 24
  · rw [if_pos h]; simp
  rw [if_neg h]
  have h1 : 1 ≤ v.natAbs := by omega
  have hk24 : 24 ≤ natLog2 v.natAbs := by
    by_contra hk
    have hlt := natLog2_lt v.natAbs h1
    have : 2 ^ (natLog2 v.natAbs + 1) ≤ 2 ^ 24 := Nat.pow_le_pow_right (by omega) (by omega)
    omega
  have hkn : 2 ^ natLog2 v.natAbs ≤ v.natAbs := natLog2_le v.natAbs h1
  have hstep_pos : 0 < (2 : Nat) ^ (natLog2 v.natAbs - 23) :=
    Nat.pos_pow_of_pos _ (by omega)
  have hstep2 : (2 : Nat) ^ (natLog2 v.natAbs - 23) = 2 ^ (natLog2 v.natAbs - 24) * 2 := by
    rw [← pow_succ]; congr 1; omega
  have hq := quantizeHalfEven_close v.natAbs (2 ^ (natLog2 v.natAbs - 23)) hstep_pos
    (by omega)
  have hhalf : (2 : Nat) ^ (natLog2 v.natAbs - 23) / 2 = 2 ^ (natLog2 v.natAbs - 24) := by
    omega
  have hpow : (2 : Nat) ^ 24 * 2 ^ (natLog2 v.natAbs - 24) = 2 ^ natLog2 v.natAbs := by
    rw [← pow_add]; congr 1; omega
  generalize hQ : quantizeHalfEven v.natAbs (2 ^ (natLog2 v.natAbs - 23)) *
      2 ^ (natLog2 v.natAbs - 23) = Q at *
  rw [hhalf] at hq
  -- the quantized magnitude is within a half step of the magnitude
  have hdist : (Q - (v.natAbs : Int)).natAbs ≤ 2 ^ (natLog2 v.natAbs - 24) := by omega
  have hsign : (v.sign * (Q : Int) - v).natAbs = ((Q : Int) - v.natAbs).natAbs := by
    rcases lt_or_gt_of_ne (show v ≠ 0 by intro h0; subst h0; simp at h1) with hneg | hpos
    · rw [Int.sign_eq_neg_one_of_neg hneg]; omega
    · rw [Int.sign_eq_one_of_pos hpos]; omega
  rw [hsign]
  calc 2 ^ 24 * ((Q : Int) - v.natAbs).natAbs ≤ 2 ^ 24 * 2 ^ (natLog2 v.natAbs - 24) :=
        Nat.mul_le_mul_left _ hdist
    _ = 2 ^ natLog2 v.natAbs := hpow
    _ ≤ v.natAbs := hkn

/-! ### Opaque word serialization of scalars

The external codec consumes the raw bytes of a float32 buffer.  In the model
each float32 item occupies `itemSize` machine words: the first word is an
injective encoding of the item's value, the rest are zero padding, so payload
lengths relate to item counts exactly as byte lengths do in the C library. -/

/-- Injective encoding of an integer as a machine word. -/
def intToNat (i : Int) : Nat := if 0 ≤ i then 2 * i.toNat else 2 * (-i).toNat - 1

/-- Inverse of `intToNat`. -/
def natToInt (n : Nat) : Int := if n % 2 = 0 then (n / 2 : Nat) else -(((n + 1) / 2 : Nat))

theorem natToInt_intToNat (i : Int) : natToInt (intToNat i) = i := by
  unfold intToNat natToInt
  by_cases h : 0 ≤ i
  · rw [if_pos h]
    have h2 : 2 * i.toNat % 2 = 0 := by omega
    rw [if_pos h2]
    omega
  · rw [if_neg h]
    have h1 : 1 ≤ (-i).toNat := by omega
    have h2 : ¬ (2 * (-i).toNat - 1) % 2 = 0 := by omega
    rw [if_neg h2]
    omega

/-- Pack a list of scalar items, `itemSize` words per item. -/
def packItems (itemSize : Nat) (items : List Int) : List Nat :=
  items.flatMap fun i => intToNat i :: List.replicate (itemSize - 1) 0

/-- Fueled unpacking, taking the head word of each `itemSize`-word group. -/
def unpackItemsF (itemSize : Nat) : Nat → List Nat → List Int
  | _, [] => []
  | 0, _ :: _ => []
  | f + 1, a :: rest => natToInt a :: unpackItemsF itemSize f (rest.drop (itemSize - 1))

theorem packItems_length (itemSize : Nat) (items : List Int) :
    (packItems itemSize items).length = items.length * (1 + (itemSize - 1)) := by
  induction items with
  | nil => simp [packItems]
  | cons i t ih =>
    simp only [packItems, List.flatMap_cons, List.length_append, List.length_cons,
      List.length_replicate] at *
    rw [ih, Nat.succ_mul]
    omega

theorem unpackItemsF_packItems (itemSize : Nat) (items : List Int) :
    ∀ fuel, items.length ≤ fuel →
      unpackItemsF itemSize fuel (packItems itemSize items) = items := by
  induction items with
  | nil => intro fuel _; cases fuel <;> simp [packItems, unpackItemsF]
  | cons i t ih =>
    intro fuel hfuel
    match fuel with
    | 0 => simp at hfuel
    | f + 1 =>
      have hpack : packItems itemSize (i :: t) =
          intToNat i :: (List.replicate (itemSize - 1) 0 ++ packItems itemSize t) := by
        simp [packItems]
      have hdrop : (List.replicate (itemSize - 1) 0 ++ packItems itemSize t).drop
          (itemSize - 1) = packItems itemSize t := by
        have h := List.drop_left (List.replicate (itemSize - 1) 0) (packItems itemSize t)
        rwa [List.length_replicate] at h
      rw [hpack]
      simp only [unpackItemsF]
      rw [natToInt_intToNat, hdrop, ih f (by simp at hfuel; omega)]

/-! ### The external codec (collaborator, not part of the repository)

Modelled from the spec: §6 gives the ExternalCodec contract
`encodeBound(itemCount, itemSize) -> size` (an upper bound on the encoded
length), `encode(dst, dstCapacity, src, itemCount, itemSize) -> bytesWritten`
with `0` signalling failure, and `decode(dst, itemCount, itemSize, src,
srcLength) -> status` with `0` for success, decode being the inverse of
encode; the wire format carries a leading version identifier (currently 1).
The native library itself is out of scope, so the model realizes this
contract with an explicitly invertible stream: a header word followed by the
packed items. -/

/-- Modelled from the spec: upper bound on the encoded byte length produced
by `meshopt_encodeVertexBufferBound` (§6); in the model the stream of
`itemCount` items of `itemSize` words plus the header fits exactly. -/
def meshopt_encodeVertexBufferBound (itemCount itemSize : Nat) : Nat :=
  itemCount * itemSize + 1

/-- Modelled from the spec: `meshopt_encodeVertexBuffer` writes the encoded
stream and reports the number of words written (`0` would signal failure);
the model emits a version header word followed by the packed items. -/
def meshopt_encodeVertexBuffer (items : List Int) (itemSize : Nat) : List Nat :=
  1 :: packItems itemSize items

/-- Modelled from the spec: `meshopt_decodeVertexBuffer` fills `itemCount`
items of `itemSize` words from the stream and returns a status, `0` on
success and nonzero on a malformed stream; the model checks the header and
the payload length and inverts `meshopt_encodeVertexBuffer`. -/
def meshopt_decodeVertexBuffer (itemCount itemSize : Nat) (buf : List Nat) :
    Except Nat (List Int) :=
  match buf with
  | [] => .error 1
  | h :: payload =>
    if h = 1 ∧ payload.length = itemCount * (1 + (itemSize - 1)) then
      .ok (unpackItemsF itemSize itemCount payload)
    else .error 2

/-- Decode inverts encode on streams with the advertised item count. -/
theorem meshopt_decode_encode (items : List Int) (itemSize : Nat) :
    meshopt_decodeVertexBuffer items.length itemSize
      (meshopt_encodeVertexBuffer items itemSize) = .ok items := by
  show (if (1 : Nat) = 1 ∧ (packItems itemSize items).length =
      items.length * (1 + (itemSize - 1)) then
        Except.ok (unpackItemsF itemSize items.length (packItems itemSize items))
      else Except.error 2) = Except.ok items
  rw [if_pos ⟨rfl, packItems_length itemSize items⟩]
  rw [unpackItemsF_packItems itemSize items items.length le_rfl]

/-! ### JSON values, `json.dumps` and `json.loads`

The JSON fragment exercised by the metadata of this package: null, integers,
strings, arrays and objects.  Strings are byte lists; `json.dumps` emits them
verbatim between quotes (its escaping of quotes, backslashes and control
bytes is not modelled, so serialization theorems carry a plain-bytes
hypothesis).  Numbers are integers (the metadata never holds floats).
Objects keep insertion order, as Python dicts do; `json.dumps` uses the
default separators, and the pretty-printing `indent=2` variant only inserts
inter-token whitespace, which `json.loads` skips, so the model serializes
compactly. -/

inductive Json where
  | null : Json
  | num : Int → Json
  | str : Bytes → Json
  | arr : List Json → Json
  | obj : List (Bytes × Json) → Json

/-- Fueled little-endian decimal digit bytes of a natural. -/
def natDigitsRev : Nat → Nat → Bytes
  | 0, _ => []
  | f + 1, n => if n = 0 then [] else (n % 10 + 48) :: natDigitsRev f (n / 10)

/-- Decimal digits of a natural, most significant first. -/
def natDigits (n : Nat) : Bytes := (natDigitsRev n n).reverse

theorem natDigitsRev_eq : ∀ f n, n ≤ f → natDigitsRev f n = (Nat.digits 10 n).map (· + 48) := by
  intro f
  induction f with
  | zero =>
    intro n hn
    have : n = 0 := by omega
    subst this
    simp [natDigitsRev]
  | succ f ih =>
    intro n hn
    by_cases h0 : n = 0
    · subst h0
      simp [natDigitsRev]
    · have hrec := ih (n / 10) (by omega)
      rw [Nat.digits_def' (show 1 < 10 by omega) (by omega)]
      simp only [natDigitsRev, if_neg h0, List.map_cons]
      rw [hrec]

theorem natDigits_eq (n : Nat) : natDigits n = (Nat.digits 10 n).reverse.map (· + 48) := by
  rw [natDigits, natDigitsRev_eq n n le_rfl, List.map_reverse]

/-- Decimal rendering of an integer, as `str(i)` produces. -/
def intBytes (i : Int) : Bytes :=
  if i = 0 then [48]
  else if i < 0 then 45 :: natDigits i.natAbs
  else natDigits i.natAbs

mutual

/-- Serialization of a JSON value, as `json.dumps` renders it. -/
def Json.dumps : Json → Bytes
  | .null => [110, 117, 108, 108]
  | .num i => intBytes i
  | .str s => 34 :: (s ++ [34])
  | .arr l => 91 :: (dumpsList l ++ [93])
  | .obj kvs => 123 :: (dumpsObj kvs ++ [125])

/-- Array elements joined by the default separator of `json.dumps`. -/
def dumpsList : List Json → Bytes
  | [] => []
  | [j] => Json.dumps j
  | j :: t => Json.dumps j ++ (44 :: 32 :: dumpsList t)

/-- Object entries joined by the default separators of `json.dumps`. -/
def dumpsObj : List (Bytes × Json) → Bytes
  | [] => []
  | [(k, v)] => 34 :: (k ++ [34]) ++ (58 :: 32 :: Json.dumps v)
  | (k, v) :: t => 34 :: (k ++ [34]) ++ (58 :: 32 :: Json.dumps v) ++ (44 :: 32 :: dumpsObj t)

end

/-- JSON whitespace. -/
def isWs (b : Nat) : Bool := b == 32 || b == 9 || b == 10 || b == 13

/-- Drop leading JSON whitespace. -/
def skipWs (s : Bytes) : Bytes := s.dropWhile fun b => isWs b

/-- ASCII decimal digit. -/
def isDigit (b : Nat) : Bool := 48 ≤ b && b ≤ 57

/-- Parse the body of a JSON string after the opening quote (no escapes). -/
def parseStrBody : Nat → Bytes → Option (Bytes × Bytes)
  | 0, _ => none
  | _ + 1, [] => none
  | f + 1, b :: r =>
    if b = 34 then some ([], r)
    else if b = 92 then none
    else match parseStrBody f r with
      | some (sb, r2) => some (b :: sb, r2)
      | none => none

/-- Parse a JSON number (an optionally signed decimal integer). -/
def parseNum : Bytes → Option (Json × Bytes)
  | [] => none
  | c :: rest =>
    if c = 45 then
      let ds := rest.takeWhile fun b => isDigit b
      if ds = [] then none
      else some (.num (-(Nat.ofDigits 10 ((ds.map (· - 48)).reverse) : Nat)),
        rest.dropWhile fun b => isDigit b)
    else
      let ds := (c :: rest).takeWhile fun b => isDigit b
      if ds = [] then none
      else some (.num ((Nat.ofDigits 10 ((ds.map (· - 48)).reverse) : Nat) : Int),
        (c :: rest).dropWhile fun b => isDigit b)

mutual

/-- Fueled parser for one JSON value, leading whitespace allowed; returns the
value and the unconsumed remainder. -/
def parseVal : Nat → Bytes → Option (Json × Bytes)
  | 0, _ => none
  | f + 1, s =>
    match skipWs s with
    | [] => none
    | c :: rest =>
      if c = 110 then
        match rest with
        | 117 :: 108 :: 108 :: r => some (.null, r)
        | _ => none
      else if c = 34 then
        match parseStrBody f rest with
        | some (sb, r) => some (.str sb, r)
        | none => none
      else if c = 91 then
        match skipWs rest with
        | [] => none
        | d :: r =>
          if d = 93 then some (.arr [], r)
          else
            match parseArrRest f rest with
            | some (l, r2) => some (.arr l, r2)
            | none => none
      else if c = 123 then
        match skipWs rest with
        | [] => none
        | d :: r =>
          if d = 125 then some (.obj [], r)
          else
            match parseObjRest f rest with
            | some (kvs, r2) => some (.obj kvs, r2)
            | none => none
      else if c = 45 ∨ isDigit c then parseNum (c :: rest)
      else none

/-- Fueled parser for the elements of a nonempty JSON array, after `[`. -/
def parseArrRest : Nat → Bytes → Option (List Json × Bytes)
  | 0, _ => none
  | f + 1, s =>
    match parseVal f s with
    | none => none
    | some (j, r) =>
      match skipWs r with
      | [] => none
      | d :: r2 =>
        if d = 44 then
          match parseArrRest f r2 with
          | some (l, r3) => some (j :: l, r3)
          | none => none
        else if d = 93 then some ([j], r2)
        else none

/-- Fueled parser for the entries of a nonempty JSON object, after the
opening brace. -/
def parseObjRest : Nat → Bytes → Option (List (Bytes × Json) × Bytes)
  | 0, _ => none
  | f + 1, s =>
    match skipWs s with
    | [] => none
    | c :: rest =>
      if c = 34 then
        match parseStrBody f rest with
        | none => none
        | some (k, r) =>
          match skipWs r with
          | [] => none
          | d :: r2 =>
            if d = 58 then
              match parseVal f r2 with
              | none => none
              | some (v, r3) =>
                match skipWs r3 with
                | [] => none
                | e :: r4 =>
                  if e = 44 then
                    match parseObjRest f r4 with
                    | some (kvs, r5) => some ((k, v) :: kvs, r5)
                    | none => none
                  else if e = 125 then some ([(k, v)], r4)
                  else none
            else none
      else none

end

/-- Parse a complete JSON document, as `json.loads` does: one value with
only whitespace after it. -/
def loads (s : Bytes) : Option Json :=
  match parseVal (s.length + 1) s with
  | some (j, r) => if skipWs r = [] then some j else none
  | none => none

/-! ### Fuel and plainness measures for JSON round trips -/

mutual

def jsonFuel : Json → Nat
  | .null => 1
  | .num _ => 1
  | .str s => s.length + 2
  | .arr l => listFuel l + 1
  | .obj kvs => objFuel kvs + 1

def listFuel : List Json → Nat
  | [] => 0
  | j :: t => jsonFuel j + 1 + listFuel t

def objFuel : List (Bytes × Json) → Nat
  | [] => 0
  | (k, v) :: t => k.length + 2 + jsonFuel v + 1 + objFuel t

end

mutual

def jsonPlain : Json → Prop
  | .null => True
  | .num _ => True
  | .str s => plainBytes s
  | .arr l => listPlain l
  | .obj kvs => objPlain kvs

def listPlain : List Json → Prop
  | [] => True
  | j :: t => jsonPlain j ∧ listPlain t

def objPlain : List (Bytes × Json) → Prop
  | [] => True
  | (k, v) :: t => plainBytes k ∧ jsonPlain v ∧ objPlain t

end

theorem jsonFuel_pos (j : Json) : 1 ≤ jsonFuel j := by
  cases j <;> simp [jsonFuel]

/-- Bytes after which a serialized number is correctly delimited. -/
def restOk (rest : Bytes) : Prop := ∀ c r, rest = c :: r → isDigit c = false

theorem skipWs_cons_of (c : Nat) (s : Bytes) (h : isWs c = false) :
    skipWs (c :: s) = c :: s := by
  simp [skipWs, List.dropWhile_cons, h]

theorem skipWs_ws (c : Nat) (s : Bytes) (h : isWs c = true) :
    skipWs (c :: s) = skipWs s := by
  simp [skipWs, List.dropWhile_cons, h]

theorem takeWhile_append_of_all (p : Nat → Bool) (xs ys : Bytes)
    (h : ∀ x ∈ xs, p x = true) :
    (xs ++ ys).takeWhile p = xs ++ ys.takeWhile p := by
  induction xs with
  | nil => simp
  | cons a t ih =>
    simp only [List.cons_append, List.takeWhile_cons, h a (by simp), if_true]
    rw [ih (fun x hx => h x (by simp [hx]))]

theorem dropWhile_append_of_all (p : Nat → Bool) (xs ys : Bytes)
    (h : ∀ x ∈ xs, p x = true) :
    (xs ++ ys).dropWhile p = ys.dropWhile p := by
  induction xs with
  | nil => simp
  | cons a t ih =>
    simp only [List.cons_append, List.dropWhile_cons, h a (by simp)]
    exact ih (fun x hx => h x (by simp [hx]))

theorem takeWhile_nil_of_head (p : Nat → Bool) (ys : Bytes)
    (h : ∀ c r, ys = c :: r → p c = false) : ys.takeWhile p = [] := by
  cases ys with
  | nil => simp
  | cons c r => simp [List.takeWhile_cons, h c r rfl]

theorem dropWhile_nil_of_head (p : Nat → Bool) (ys : Bytes)
    (h : ∀ c r, ys = c :: r → p c = false) : ys.dropWhile p = ys := by
  cases ys with
  | nil => simp
  | cons c r => simp [List.dropWhile_cons, h c r rfl]

theorem natDigits_all_digit (n : Nat) : ∀ b ∈ natDigits n, isDigit b = true := by
  intro b hb
  rw [natDigits_eq] at hb
  simp only [List.mem_map, List.mem_reverse] at hb
  obtain ⟨d, hd, rfl⟩ := hb
  have := Nat.digits_lt_base (by omega) hd
  simp [isDigit]
  omega

theorem natDigits_decode (n : Nat) :
    (Nat.ofDigits 10 (((natDigits n).map (· - 48)).reverse) : Nat) = n := by
  have hmap : (natDigits n).map (· - 48) = (Nat.digits 10 n).reverse := by
    rw [natDigits_eq]
    simp only [List.map_map]
    have : ((· - 48) ∘ (· + 48)) = (id : Nat → Nat) := by
      funext x; simp
    rw [this, List.map_id]
  rw [hmap, List.reverse_reverse, Nat.ofDigits_digits]

theorem natDigits_ne_nil (n : Nat) (h : 1 ≤ n) : natDigits n ≠ [] := by
  rw [natDigits_eq]
  intro hc
  rw [List.map_eq_nil_iff, List.reverse_eq_nil_iff] at hc
  have hne : n ≠ 0 := by omega
  exact (Nat.digits_ne_nil_iff_ne_zero.mpr hne : Nat.digits 10 n ≠ []) hc

theorem parseNum_intBytes (i : Int) (rest : Bytes) (hrest : restOk rest) :
    parseNum (intBytes i ++ rest) = some (.num i, rest) := by
  have htake : ∀ m : Nat, (natDigits m ++ rest).takeWhile (fun b => isDigit b) = natDigits m := by
    intro m
    rw [takeWhile_append_of_all _ _ _ (natDigits_all_digit m),
      takeWhile_nil_of_head _ rest hrest, List.append_nil]
  have hdrop : ∀ m : Nat, (natDigits m ++ rest).dropWhile (fun b => isDigit b) = rest := by
    intro m
    rw [dropWhile_append_of_all _ _ _ (natDigits_all_digit m),
      dropWhile_nil_of_head _ rest hrest]
  rcases lt_trichotomy i 0 with hneg | hzero | hpos
  · have : intBytes i = 45 :: natDigits i.natAbs := by
      simp [intBytes, hneg]
      omega
    rw [this]
    simp only [List.cons_append, parseNum, if_pos rfl]
    rw [htake, hdrop]
    rw [if_neg (natDigits_ne_nil i.natAbs (by omega))]
    rw [natDigits_decode]
    have hval : -((i.natAbs : Nat) : Int) = i := by omega
    rw [hval]
    simp
  · subst hzero
    have : intBytes 0 = [48] := by simp [intBytes]
    rw [this]
    simp only [List.cons_append, List.nil_append, parseNum]
    rw [if_neg (by omega)]
    have h48 : (48 :: rest).takeWhile (fun b => isDigit b) = [48] := by
      rw [show (48 :: rest) = [48] ++ rest from rfl, takeWhile_append_of_all _ _ _ (by decide),
        takeWhile_nil_of_head _ rest hrest, List.append_nil]
    have h48d : (48 :: rest).dropWhile (fun b => isDigit b) = rest := by
      rw [show (48 :: rest) = [48] ++ rest from rfl, dropWhile_append_of_all _ _ _ (by decide),
        dropWhile_nil_of_head _ rest hrest]
    rw [h48, h48d]
    simp [Nat.ofDigits]
  · have : intBytes i = natDigits i.natAbs := by
      unfold intBytes
      rw [if_neg (by omega), if_neg (by omega)]
    rw [this]
    obtain ⟨b, bs, hbs⟩ : ∃ b bs, natDigits i.natAbs = b :: bs := by
      cases hnd : natDigits i.natAbs with
      | nil => exact absurd hnd (natDigits_ne_nil _ (by omega))
      | cons b bs => exact ⟨b, bs, rfl⟩
    have hdig : isDigit b = true := natDigits_all_digit _ b (by rw [hbs]; simp)
    have hb48 : 48 ≤ b ∧ b ≤ 57 := by
      simp [isDigit] at hdig; omega
    rw [hbs]
    simp only [List.cons_append, parseNum]
    rw [if_neg (by omega)]
    rw [show b :: (bs ++ rest) = (b :: bs) ++ rest from rfl, ← hbs]
    rw [htake, hdrop]
    rw [if_neg (natDigits_ne_nil i.natAbs (by omega))]
    rw [natDigits_decode]
    have hval : (((i.natAbs : Nat)) : Int) = i := by omega
    rw [hval]

theorem parseStrBody_plain (k : Bytes) (hk : plainBytes k) :
    ∀ f rest, k.length + 1 ≤ f → parseStrBody f (k ++ 34 :: rest) = some (k, rest) := by
  induction k with
  | nil =>
    intro f rest hf
    match f, hf with
    | g + 1, _ =>
      simp [parseStrBody]
  | cons b t ih =>
    intro f rest hf
    match f, hf with
    | g + 1, hf =>
      have hb := hk b (by simp)
      have hb34 : ¬ b = 34 := by
        intro hc; exact hb.2.2.1 hc
      have hb92 : ¬ b = 92 := by
        intro hc; exact hb.2.2.2 hc
      simp only [List.cons_append, parseStrBody, if_neg hb34, if_neg hb92, List.append_eq]
      rw [ih (fun x hx => hk x (by simp [hx])) g rest (by simp at hf; omega)]

theorem parseVal_ws (f : Nat) (s : Bytes) : parseVal f (32 :: s) = parseVal f s := by
  cases f with
  | zero => rfl
  | succ g =>
    simp only [parseVal]
    rw [skipWs_ws 32 s (by decide)]

theorem parseArrRest_ws (f : Nat) (s : Bytes) :
    parseArrRest f (32 :: s) = parseArrRest f s := by
  cases f with
  | zero => rfl
  | succ g =>
    simp only [parseArrRest]
    rw [parseVal_ws]

theorem parseObjRest_ws (f : Nat) (s : Bytes) :
    parseObjRest f (32 :: s) = parseObjRest f s := by
  cases f with
  | zero => rfl
  | succ g =>
    simp only [parseObjRest]
    rw [skipWs_ws 32 s (by decide)]

theorem intBytes_head (i : Int) :
    ∃ c cs, intBytes i = c :: cs ∧ (c = 45 ∨ isDigit c = true) ∧ isWs c = false ∧
      c ≠ 110 ∧ c ≠ 34 ∧ c ≠ 91 ∧ c ≠ 123 ∧ c ≠ 93 ∧ c ≠ 125 := by
  rcases lt_trichotomy i 0 with hneg | hzero | hpos
  · refine ⟨45, natDigits i.natAbs, ?_, by decide, by decide, by decide, by decide,
      by decide, by decide, by decide, by decide⟩
    simp [intBytes, hneg]
    omega
  · subst hzero
    exact ⟨48, [], by simp [intBytes], by decide, by decide, by decide, by decide,
      by decide, by decide, by decide, by decide⟩
  · obtain ⟨b, bs, hbs⟩ : ∃ b bs, natDigits i.natAbs = b :: bs := by
      cases hnd : natDigits i.natAbs with
      | nil => exact absurd hnd (natDigits_ne_nil _ (by omega))
      | cons b bs => exact ⟨b, bs, rfl⟩
    have hdig : isDigit b = true := natDigits_all_digit _ b (by rw [hbs]; simp)
    have hb : 48 ≤ b ∧ b ≤ 57 := by simp [isDigit] at hdig; omega
    refine ⟨b, bs, ?_, Or.inr hdig, ?_, ?_, ?_, ?_, ?_, ?_, ?_⟩
    · rw [← hbs]
      unfold intBytes
      rw [if_neg (by omega), if_neg (by omega)]
    · simp [isWs]; omega
    all_goals omega

theorem dumps_head (j : Json) :
    ∃ c cs, Json.dumps j = c :: cs ∧ isWs c = false ∧ c ≠ 93 ∧ c ≠ 125 := by
  cases j with
  | null => exact ⟨110, _, rfl, by decide, by decide, by decide⟩
  | num i =>
    obtain ⟨c, cs, h, _, hws, _, _, _, _, h93, h125⟩ := intBytes_head i
    exact ⟨c, cs, h, hws, h93, h125⟩
  | str s => exact ⟨34, _, rfl, by decide, by decide, by decide⟩
  | arr l => exact ⟨91, _, rfl, by decide, by decide, by decide⟩
  | obj kvs => exact ⟨123, _, rfl, by decide, by decide, by decide⟩

theorem dumpsList_head (l : List Json) (hne : l ≠ []) :
    ∃ c cs, dumpsList l = c :: cs ∧ isWs c = false ∧ c ≠ 93 := by
  match l with
  | [j] =>
    obtain ⟨c, cs, h, hws, h93, _⟩ := dumps_head j
    exact ⟨c, cs, by simp [dumpsList, h], hws, h93⟩
  | j :: t :: ts =>
    obtain ⟨c, cs, h, hws, h93, _⟩ := dumps_head j
    refine ⟨c, cs ++ (44 :: 32 :: dumpsList (t :: ts)), ?_, hws, h93⟩
    simp [dumpsList, h]

theorem dumpsObj_head (kvs : List (Bytes × Json)) (hne : kvs ≠ []) :
    ∃ cs, dumpsObj kvs = 34 :: cs := by
  match kvs with
  | [(k, v)] => exact ⟨_, rfl⟩
  | (k, v) :: t :: ts => exact ⟨_, rfl⟩

theorem parse_dumps_all : ∀ f : Nat,
    (∀ j rest, jsonPlain j → jsonFuel j ≤ f → restOk rest →
      parseVal f (Json.dumps j ++ rest) = some (j, rest)) ∧
    (∀ l rest, l ≠ [] → listPlain l → listFuel l ≤ f →
      parseArrRest f (dumpsList l ++ 93 :: rest) = some (l, rest)) ∧
    (∀ kvs rest, kvs ≠ [] → objPlain kvs → objFuel kvs ≤ f →
      parseObjRest f (dumpsObj kvs ++ 125 :: rest) = some (kvs, rest)) := by
  intro f
  induction f with
  | zero =>
    refine ⟨?_, ?_, ?_⟩
    · intro j rest _ hfuel _
      exact absurd hfuel (by have := jsonFuel_pos j; omega)
    · intro l rest hne _ hfuel
      cases l with
      | nil => exact absurd rfl hne
      | cons j t =>
        simp [listFuel] at hfuel
    · intro kvs rest hne _ hfuel
      cases kvs with
      | nil => exact absurd rfl hne
      | cons kv t =>
        obtain ⟨k, v⟩ := kv
        simp [objFuel] at hfuel
  | succ f ih =>
    obtain ⟨ihV, ihA, ihO⟩ := ih
    refine ⟨?_, ?_, ?_⟩
    · intro j rest hplain hfuel hrest
      cases j with
      | null =>
        show parseVal (f + 1) ([110, 117, 108, 108] ++ rest) = some (.null, rest)
        simp only [List.cons_append, List.nil_append, parseVal]
        rw [skipWs_cons_of 110 _ (by decide)]
        simp
      | num i =>
        obtain ⟨c, cs, h, hdisp, hws, h110, h34, h91, h123, _, _⟩ := intBytes_head i
        show parseVal (f + 1) (intBytes i ++ rest) = some (.num i, rest)
        rw [h, List.cons_append]
        simp only [parseVal]
        rw [skipWs_cons_of c _ hws]
        simp only [if_neg h110, if_neg h34, if_neg h91, if_neg h123]
        have hcond : c = 45 ∨ isDigit c = true := hdisp
        rw [if_pos hcond]
        rw [show c :: (cs ++ rest) = intBytes i ++ rest by rw [h, List.cons_append]]
        exact parseNum_intBytes i rest hrest
      | str s =>
        show parseVal (f + 1) (34 :: ((s ++ [34]) ++ rest)) = some (.str s, rest)
        simp only [parseVal]
        rw [skipWs_cons_of 34 _ (by decide)]
        have hsb : parseStrBody f (s ++ 34 :: rest) = some (s, rest) :=
          parseStrBody_plain s (by exact hplain) f rest
            (by simp [jsonFuel] at hfuel; omega)
        simp [hsb]
      | arr l =>
        cases l with
        | nil =>
          show parseVal (f + 1) (91 :: (([] ++ [93] : Bytes) ++ rest)) = some (.arr [], rest)
          simp only [List.nil_append, List.cons_append]
          simp only [parseVal]
          rw [skipWs_cons_of 91 _ (by decide)]
          simp only []
          rw [skipWs_cons_of 93 _ (by decide)]
          simp
        | cons j0 t =>
          have hne : (j0 :: t) ≠ ([] : List Json) := by simp
          obtain ⟨c, cs, hL, hws, h93⟩ := dumpsList_head (j0 :: t) hne
          show parseVal (f + 1) (91 :: ((dumpsList (j0 :: t) ++ [93]) ++ rest)) =
            some (.arr (j0 :: t), rest)
          simp only [parseVal]
          rw [skipWs_cons_of 91 _ (by decide)]
          simp only []
          rw [List.append_assoc]
          have h93r : ([93] : Bytes) ++ rest = 93 :: rest := rfl
          rw [h93r]
          rw [hL, List.cons_append]
          rw [skipWs_cons_of c _ hws]
          simp only [if_neg h93]
          rw [show c :: (cs ++ 93 :: rest) = dumpsList (j0 :: t) ++ 93 :: rest by
            rw [hL, List.cons_append]]
          rw [ihA (j0 :: t) rest hne (by exact hplain) (by simp [jsonFuel] at hfuel; omega)]
          simp
      | obj kvs =>
        cases kvs with
        | nil =>
          show parseVal (f + 1) (123 :: (([] ++ [125] : Bytes) ++ rest)) = some (.obj [], rest)
          simp only [List.nil_append, List.cons_append]
          simp only [parseVal]
          rw [skipWs_cons_of 123 _ (by decide)]
          simp only []
          rw [skipWs_cons_of 125 _ (by decide)]
          simp
        | cons kv t =>
          have hne : (kv :: t) ≠ ([] : List (Bytes × Json)) := by simp
          obtain ⟨cs, hL⟩ := dumpsObj_head (kv :: t) hne
          show parseVal (f + 1) (123 :: ((dumpsObj (kv :: t) ++ [125]) ++ rest)) =
            some (.obj (kv :: t), rest)
          simp only [parseVal]
          rw [skipWs_cons_of 123 _ (by decide)]
          simp only []
          rw [List.append_assoc]
          have h125r : ([125] : Bytes) ++ rest = 125 :: rest := rfl
          rw [h125r]
          rw [hL, List.cons_append]
          rw [skipWs_cons_of 34 _ (by decide)]
          simp only [if_neg (show (34 : Nat) ≠ 125 by decide)]
          rw [show (34 : Nat) :: (cs ++ 125 :: rest) = dumpsObj (kv :: t) ++ 125 :: rest by
            rw [hL, List.cons_append]]
          rw [ihO (kv :: t) rest hne (by exact hplain) (by simp [jsonFuel] at hfuel; omega)]
          simp
    · intro l rest hne hplain hfuel
      cases l with
      | nil => exact absurd rfl hne
      | cons j t =>
        cases t with
        | nil =>
          have hplainj : jsonPlain j := hplain.1
          have hfj : jsonFuel j ≤ f := by simp [listFuel] at hfuel; omega
          show parseArrRest (f + 1) (Json.dumps j ++ 93 :: rest) = some ([j], rest)
          simp only [parseArrRest]
          rw [ihV j (93 :: rest) hplainj hfj (by intro c r hc; cases hc; decide)]
          simp only []
          rw [skipWs_cons_of 93 rest (by decide)]
          simp
        | cons t0 ts =>
          have hplainj : jsonPlain j := hplain.1
          have hplaint : listPlain (t0 :: ts) := hplain.2
          have hfj : jsonFuel j ≤ f := by simp [listFuel] at hfuel; omega
          have hft : listFuel (t0 :: ts) ≤ f := by
            have h1 := jsonFuel_pos j
            simp [listFuel] at hfuel ⊢
            omega
          show parseArrRest (f + 1)
            ((Json.dumps j ++ (44 :: 32 :: dumpsList (t0 :: ts))) ++ 93 :: rest) =
            some (j :: t0 :: ts, rest)
          rw [List.append_assoc, List.cons_append, List.cons_append]
          simp only [parseArrRest]
          rw [ihV j (44 :: 32 :: (dumpsList (t0 :: ts) ++ 93 :: rest)) hplainj hfj
            (by intro c r hc; cases hc; decide)]
          simp only []
          rw [skipWs_cons_of 44 (32 :: (dumpsList (t0 :: ts) ++ 93 :: rest)) (by decide)]
          simp only [if_pos rfl]
          rw [parseArrRest_ws]
          rw [ihA (t0 :: ts) rest (by simp) hplaint hft]
          simp
    · intro kvs rest hne hplain hfuel
      cases kvs with
      | nil => exact absurd rfl hne
      | cons kv kvt =>
        obtain ⟨k, v⟩ := kv
        cases kvt with
        | nil =>
          have hpk : plainBytes k := hplain.1
          have hpv : jsonPlain v := hplain.2.1
          have hfk : k.length + 1 ≤ f := by simp [objFuel] at hfuel; omega
          have hfv : jsonFuel v ≤ f := by simp [objFuel] at hfuel; omega
          show parseObjRest (f + 1)
            ((34 :: (k ++ [34]) ++ (58 :: 32 :: Json.dumps v)) ++ 125 :: rest) =
            some ([(k, v)], rest)
          simp only [List.cons_append, List.append_assoc, List.nil_append]
          simp only [parseObjRest]
          rw [skipWs_cons_of 34 _ (by decide)]
          simp only [if_pos rfl]
          rw [parseStrBody_plain k hpk f _ hfk]
          simp only []
          rw [skipWs_cons_of 58 _ (by decide)]
          simp only [if_pos rfl]
          rw [parseVal_ws]
          rw [ihV v (125 :: rest) hpv hfv (by intro c r hc; cases hc; decide)]
          simp only []
          rw [skipWs_cons_of 125 rest (by decide)]
          simp
        | cons kv2 kvt2 =>
          have hpk : plainBytes k := hplain.1
          have hpv : jsonPlain v := hplain.2.1
          have hpt : objPlain (kv2 :: kvt2) := hplain.2.2
          have hfk : k.length + 1 ≤ f := by simp [objFuel] at hfuel; omega
          have hfv : jsonFuel v ≤ f := by simp [objFuel] at hfuel; omega
          have hft : objFuel (kv2 :: kvt2) ≤ f := by
            have h1 := jsonFuel_pos v
            simp [objFuel] at hfuel ⊢
            omega
          show parseObjRest (f + 1)
            ((34 :: (k ++ [34]) ++ (58 :: 32 :: Json.dumps v) ++
              (44 :: 32 :: dumpsObj (kv2 :: kvt2))) ++ 125 :: rest) =
            some ((k, v) :: kv2 :: kvt2, rest)
          simp only [List.cons_append, List.append_assoc, List.nil_append]
          simp only [parseObjRest]
          rw [skipWs_cons_of 34 _ (by decide)]
          simp only [if_pos rfl]
          rw [parseStrBody_plain k hpk f _ hfk]
          simp only []
          rw [skipWs_cons_of 58 _ (by decide)]
          simp only [if_pos rfl]
          rw [parseVal_ws]
          rw [ihV v (44 :: 32 :: (dumpsObj (kv2 :: kvt2) ++ 125 :: rest)) hpv hfv
            (by intro c r hc; cases hc; decide)]
          simp only []
          rw [skipWs_cons_of 44 (32 :: (dumpsObj (kv2 :: kvt2) ++ 125 :: rest)) (by decide)]
          simp only [if_pos rfl]
          rw [parseObjRest_ws]
          rw [ihO (kv2 :: kvt2) rest (by simp) hpt hft]
          simp

theorem dumps_fuel_all : ∀ N : Nat,
    (∀ j : Json, sizeOf j ≤ N → jsonFuel j ≤ (Json.dumps j).length) ∧
    (∀ l : List Json, sizeOf l ≤ N → listFuel l ≤ (dumpsList l).length + 1) ∧
    (∀ kvs : List (Bytes × Json), sizeOf kvs ≤ N → objFuel kvs ≤ (dumpsObj kvs).length + 1) := by
  intro N
  induction N with
  | zero =>
    refine ⟨?_, ?_, ?_⟩
    · intro j hj
      cases j <;> simp at hj
    · intro l hl
      cases l <;> simp at hl
    · intro kvs hk
      cases kvs <;> simp at hk
  | succ N ih =>
    obtain ⟨ihJ, ihL, ihK⟩ := ih
    refine ⟨?_, ?_, ?_⟩
    · intro j hj
      cases j with
      | null => simp [jsonFuel, Json.dumps]
      | num i =>
        obtain ⟨c, cs, h, _⟩ := intBytes_head i
        show jsonFuel (Json.num i) ≤ (intBytes i).length
        rw [h]
        simp [jsonFuel]
      | str s => simp [jsonFuel, Json.dumps]
      | arr l =>
        have hsz : sizeOf l ≤ N := by simp at hj; omega
        have h := ihL l hsz
        simp [jsonFuel, Json.dumps]
        omega
      | obj kvs =>
        have hsz : sizeOf kvs ≤ N := by simp at hj; omega
        have h := ihK kvs hsz
        simp [jsonFuel, Json.dumps]
        omega
    · intro l hl
      cases l with
      | nil => simp [listFuel, dumpsList]
      | cons j t =>
        have hj : sizeOf j ≤ N := by simp at hl; omega
        have ht : sizeOf t ≤ N := by simp at hl; omega
        have h1 := ihJ j hj
        have h2 := ihL t ht
        cases t with
        | nil =>
          show listFuel [j] ≤ (dumpsList [j]).length + 1
          have e1 : listFuel [j] = jsonFuel j + 1 := by simp [listFuel]
          have e2 : dumpsList [j] = Json.dumps j := rfl
          rw [e1, e2]
          omega
        | cons t0 ts =>
          show listFuel (j :: t0 :: ts) ≤ (dumpsList (j :: t0 :: ts)).length + 1
          have e1 : listFuel (j :: t0 :: ts) = jsonFuel j + 1 + listFuel (t0 :: ts) := rfl
          have e2 : dumpsList (j :: t0 :: ts) =
            Json.dumps j ++ (44 :: 32 :: dumpsList (t0 :: ts)) := rfl
          rw [e1, e2]
          simp only [List.length_append, List.length_cons]
          omega
    · intro kvs hk
      cases kvs with
      | nil => simp [objFuel, dumpsObj]
      | cons kv t =>
        obtain ⟨k, v⟩ := kv
        have hv : sizeOf v ≤ N := by simp at hk; omega
        have ht : sizeOf t ≤ N := by simp at hk; omega
        have h1 := ihJ v hv
        have h2 := ihK t ht
        cases t with
        | nil =>
          show objFuel [(k, v)] ≤ (dumpsObj [(k, v)]).length + 1
          have e1 : objFuel [(k, v)] = k.length + 2 + jsonFuel v + 1 := by simp [objFuel]
          have e2 : dumpsObj [(k, v)] =
            34 :: (k ++ [34]) ++ (58 :: 32 :: Json.dumps v) := rfl
          rw [e1, e2]
          simp only [List.length_append, List.length_cons, List.length_nil]
          omega
        | cons t0 ts =>
          show objFuel ((k, v) :: t0 :: ts) ≤ (dumpsObj ((k, v) :: t0 :: ts)).length + 1
          have e1 : objFuel ((k, v) :: t0 :: ts) =
            k.length + 2 + jsonFuel v + 1 + objFuel (t0 :: ts) := rfl
          have e2 : dumpsObj ((k, v) :: t0 :: ts) =
            34 :: (k ++ [34]) ++ (58 :: 32 :: Json.dumps v) ++
              (44 :: 32 :: dumpsObj (t0 :: ts)) := rfl
          rw [e1, e2]
          simp only [List.length_append, List.length_cons, List.length_nil]
          omega

/-- Round trip of the JSON serializer through the parser, for values whose
strings need no escaping. -/
theorem loads_dumps (j : Json) (hplain : jsonPlain j) : loads (Json.dumps j) = some j := by
  unfold loads
  have h1 := (parse_dumps_all ((Json.dumps j).length + 1)).1 j [] hplain
    (by have h := (dumps_fuel_all (sizeOf j)).1 j le_rfl; omega)
    (by intro c r hc; exact absurd hc (by simp))
  rw [List.append_nil] at h1
  rw [h1]
  simp [skipWs]

/-! ### The error taxonomy

Python exception classes map to the spec's taxonomy (§7): `ValueError` is
ValidationError, `FileNotFoundError` is NotFoundError, `struct.error` and
JSON decoding failures are FormatError, the `RuntimeError`s raised by
`arrayutils.py` are EncodingError / DecodingError, and the `IOError`
wrapper of the combined-bundle paths is the aggregate error, carrying the
original exception as its context.  `KeyError` and `TypeError` from dynamic
lookups keep their own constructors. -/

inductive Err where
  | encodingError
  | decodingError (code : Nat)
  | validationError (msg : String)
  | notFoundError (msg : String)
  | formatError
  | keyError
  | typeError
  | ioError (cause : Err)
deriving DecidableEq

/-- Resolution of a key among parsed JSON object entries: as in a Python
dict built by `json.loads`, a duplicated key keeps its last value. -/
def lookupLast (kvs : List (Bytes × Json)) (k : Bytes) : Option Json :=
  match kvs with
  | [] => none
  | (k2, v) :: t =>
    match lookupLast t k with
    | some r => some r
    | none => if k2 = k then some v else none

/-- Subscript `metadata[k]`: KeyError when the key is missing, TypeError
when the value is not a dict. -/
def jsonItem (j : Json) (k : Bytes) : Except Err Json :=
  match j with
  | .obj kvs =>
    match lookupLast kvs k with
    | some v => .ok v
    | none => .error .keyError
  | _ => .error .typeError

/-- Call `metadata.get(k)`: `None` when the key is missing; on a non-dict the
attribute lookup fails (modelled as TypeError). -/
def jsonGet (j : Json) (k : Bytes) : Except Err (Option Json) :=
  match j with
  | .obj kvs => .ok (lookupLast kvs k)
  | _ => .error .typeError

/-!
Python is dynamically typed: a metadata value of an unexpected JSON type
would flow into the constructed record unchecked.  The typed model instead
rejects such a value with `Err.typeError`; no archive produced by the save
paths contains one, so the claims are unaffected.
-/

/-- Coerce a JSON value expected to be an integer. -/
def jsonToInt : Json → Except Err Int
  | .num i => .ok i
  | _ => .error .typeError

/-- Coerce a JSON value expected to be a nonnegative integer. -/
def jsonToNat : Json → Except Err Nat
  | .num i => if 0 ≤ i then .ok i.toNat else .error .typeError
  | _ => .error .typeError

/-- Coerce a JSON value expected to be an integer or null. -/
def jsonToOptInt : Json → Except Err (Option Int)
  | .null => .ok none
  | .num i => .ok (some i)
  | _ => .error .typeError

/-- Coerce a JSON value expected to be a shape, `tuple(metadata["shape"])`. -/
def jsonToShape : Json → Except Err (List Nat)
  | .arr l => l.mapM fun x =>
      match x with
      | .num i => if 0 ≤ i then Except.ok i.toNat else .error .typeError
      | _ => .error .typeError
  | _ => .error .typeError

/-! ### The data model: dtypes, arrays, encoded records -/

/-- Supported numpy dtypes in the model: the codec's native `float32` and
the integer dtypes whose conversion path the claims exercise (the remaining
numeric dtypes follow the same code path). -/
inductive Dtype where
  | float32
  | int32
  | int64
deriving DecidableEq

/-- Portable dtype name, `str(dtype)`. -/
def dtypeName : Dtype → Bytes
  | .float32 => strB "float32"
  | .int32 => strB "int32"
  | .int64 => strB "int64"

/-- Reconstruction `np.dtype(name)`; an unknown name raises TypeError. -/
def np_dtype (s : Bytes) : Except Err Dtype :=
  if s = strB "float32" then .ok .float32
  else if s = strB "int32" then .ok .int32
  else if s = strB "int64" then .ok .int64
  else .error .typeError

/-- Values a dtype can store (float32 scalars are opaque carriers here). -/
def dtypeInRange (d : Dtype) (v : Int) : Prop :=
  match d with
  | .float32 => True
  | .int32 => -(2 ^ 31) ≤ v ∧ v < 2 ^ 31
  | .int64 => -(2 ^ 63) ≤ v ∧ v < 2 ^ 63

instance (d : Dtype) (v : Int) : Decidable (dtypeInRange d v) := by
  unfold dtypeInRange; cases d <;> infer_instance

/-- Numpy array of a supported dtype: shape, dtype tag and the flat
row-major scalar list (`array.reshape(-1)` of the original). -/
structure NDArray where
  shape : List Nat
  dtype : Dtype
  data : List Int

/-- Well-formed array: the flat data has `prod(shape)` entries, each within
the dtype's range. -/
def NDArray.wf (a : NDArray) : Prop :=
  a.data.length = a.shape.prod ∧ ∀ v ∈ a.data, dtypeInRange a.dtype v

instance (a : NDArray) : Decidable a.wf := by
  unfold NDArray.wf; infer_instance

/-- Conversion `astype(np.float32)` of one integer scalar. -/
def castToF32 (v : Int) : Int := roundF32Int v

/-- Two's-complement wrap into the signed `w`-bit range, the common
behavior of the C float-to-int cast numpy performs when out of range. -/
def wrapInt (w : Nat) (i : Int) : Int := (i + 2 ^ (w - 1)) % 2 ^ w - 2 ^ (w - 1)

/-- Conversion `astype(dtype)` of one float32 scalar back to the original
dtype: truncation is the identity on integral float values, followed by the
width reduction of the C cast. -/
def castFromF32 (d : Dtype) (v : Int) : Int :=
  match d with
  | .float32 => v
  | .int32 => wrapInt 32 v
  | .int64 => wrapInt 64 v

/-- Compressed array record of `arrayutils.EncodedArray`. -/
structure EncodedArray where
  data : Bytes
  shape : List Nat
  dtype : Dtype
  itemsize : Nat
deriving DecidableEq

/-! ### arrayutils: encode and decode -/

/-- Embedding of `arrayutils.encode_array`. -/
def encode_array (array : NDArray) : Except Err EncodedArray :=
  let original_shape := array.shape
  let original_dtype := array.dtype
  -- reshape(-1): the model's data is already the row-major flattening
  let flattened := array.data
  -- convert to float32 if not already (meshoptimizer expects float32)
  let flattened :=
    if array.dtype ≠ Dtype.float32 then flattened.map castToF32 else flattened
  let item_count := flattened.length
  let item_size := 4
  let bound := meshopt_encodeVertexBufferBound item_count item_size
  let out := meshopt_encodeVertexBuffer flattened item_size
  let result_size := out.length
  if result_size = 0 then .error .encodingError
  else
    -- the zero-initialized bound-sized buffer holds the written prefix
    let buffer := out ++ (List.replicate bound 0).drop result_size
    .ok ⟨buffer.take result_size, original_shape, original_dtype, item_size⟩

/-- Embedding of `arrayutils.decode_array`. -/
def decode_array (encoded_array : EncodedArray) : Except Err NDArray :=
  let total_items := encoded_array.shape.prod
  match meshopt_decodeVertexBuffer total_items encoded_array.itemsize
      encoded_array.data with
  | .error code => .error (.decodingError code)
  | .ok destination =>
    -- reshape to the original shape, then cast back to the original dtype
    let reshaped :=
      if encoded_array.dtype ≠ Dtype.float32 then
        destination.map (castFromF32 encoded_array.dtype)
      else destination
    .ok ⟨encoded_array.shape, encoded_array.dtype, reshaped⟩

/-! ### arrayutils: the single-asset file framing

The file system is modelled as returning exactly the written bytes: a save
returns the file's content, a load consumes it. -/

/-- JSON rendering of one dimension size. -/
def natNum (n : Nat) : Json := Json.num (n : Int)

/-- Metadata object a saved `EncodedArray` carries. -/
def arrayMetaJson (e : EncodedArray) : Json :=
  .obj [(strB "shape", .arr (e.shape.map natNum)),
        (strB "dtype", .str (dtypeName e.dtype)),
        (strB "itemsize", .num e.itemsize)]

/-- Little-endian 4-byte rendering, `struct.pack` of format `<I`. -/
def packU32 (n : Nat) : Bytes :=
  [n % 256, n / 256 % 256, n / 65536 % 256, n / 16777216 % 256]

/-- Little-endian 4-byte reading, `struct.unpack` of format `<I`. -/
def unpackU32 (b0 b1 b2 b3 : Nat) : Nat := b0 + 256 * b1 + 65536 * b2 + 16777216 * b3

theorem unpackU32_packU32 (n : Nat) (h : n < 2 ^ 32) :
    unpackU32 (n % 256) (n / 256 % 256) (n / 65536 % 256) (n / 16777216 % 256) = n := by
  unfold unpackU32
  omega

/-- Embedding of `arrayutils.save_encoded_array_to_file`; the result is the
file content.  `struct.pack` fails on a length that overflows 4 bytes. -/
def save_encoded_array_to_file (encoded_array : EncodedArray) : Except Err Bytes :=
  let metadata_json := Json.dumps (arrayMetaJson encoded_array)
  if metadata_json.length < 2 ^ 32 then
    .ok (packU32 metadata_json.length ++ metadata_json ++ encoded_array.data)
  else .error .formatError

/-- Embedding of `arrayutils.load_encoded_array_from_file` over the file's
bytes.  A file shorter than four bytes fails `struct.unpack`; `f.read`
returns at most the declared count; the remainder of the file is the
payload. -/
def load_encoded_array_from_file (content : Bytes) : Except Err EncodedArray :=
  match content with
  | b0 :: b1 :: b2 :: b3 :: rest =>
    let metadata_length := unpackU32 b0 b1 b2 b3
    let metadata_bytes := rest.take metadata_length
    match loads metadata_bytes with
    | none => .error .formatError
    | some metadata => do
      let encoded_data := rest.drop metadata_length
      let shapeJ ← jsonItem metadata (strB "shape")
      let shape ← jsonToShape shapeJ
      let dtJ ← jsonItem metadata (strB "dtype")
      let dt ← match dtJ with
        | .str s => np_dtype s
        | _ => .error Err.typeError
      let iszJ ← jsonItem metadata (strB "itemsize")
      let isz ← jsonToNat iszJ
      pure ⟨encoded_data, shape, dt, isz⟩
  | _ => .error .formatError

/-! ### The zip archive model

An archive is its ordered entry list; `writestr` appends, and reading a name
resolves to the last entry bearing it, as `ZipFile.NameToInfo` does.  A
`zipf.open`/`zipf.read` of an absent name raises KeyError. -/

/-- Zip archive content. -/
abbrev Zip := List (Bytes × Bytes)

/-- Entry names, `zipf.namelist()`. -/
def zipNames (z : Zip) : List Bytes := z.map Prod.fst

/-- Resolve a name to the content of its last entry. -/
def zipFind (z : Zip) (name : Bytes) : Option Bytes :=
  match z with
  | [] => none
  | (n, b) :: t =>
    match zipFind t name with
    | some r => some r
    | none => if n = name then some b else none

/-- Read an entry, `zipf.read` / `zipf.open`: KeyError when absent. -/
def zipRead (z : Zip) (name : Bytes) : Except Err Bytes :=
  match zipFind z name with
  | some b => .ok b
  | none => .error .keyError

/-! ### data.py and ziputils: encoded meshes -/

/-- Embedding of the `data.EncodedMesh` dataclass, defaults included. -/
structure EncodedMesh where
  vertices : Bytes
  indices : Option Bytes := none
  vertex_count : Int := 0
  vertex_size : Int := 0
  index_count : Option Int := none
  index_size : Int := 4
deriving DecidableEq

/-- Metadata object `save_encoded_mesh_to_zip` writes: `index_count` is
added only when present. -/
def meshMetaJson (m : EncodedMesh) : Json :=
  .obj ([(strB "vertex_count", .num m.vertex_count),
         (strB "vertex_size", .num m.vertex_size),
         (strB "index_size", .num m.index_size)] ++
    (match m.index_count with
     | some c => [(strB "index_count", Json.num c)]
     | none => []))

/-- Embedding of `ziputils.save_encoded_mesh_to_zip`; the result is the
archive written at the target path. -/
def save_encoded_mesh_to_zip (encoded_mesh : EncodedMesh)
    (vertices_filename : Bytes := strB "vertices.bin")
    (indices_filename : Bytes := strB "indices.bin")
    (metadata_filename : Bytes := strB "metadata.json") : Zip :=
  [(vertices_filename, encoded_mesh.vertices)] ++
    (match encoded_mesh.indices with
     | some b => [(indices_filename, b)]
     | none => []) ++
    [(metadata_filename, Json.dumps (meshMetaJson encoded_mesh))]

/-- Embedding of `ziputils.load_encoded_mesh_from_zip` over an archive. -/
def load_encoded_mesh_from_zip (z : Zip)
    (vertices_filename : Bytes := strB "vertices.bin")
    (indices_filename : Bytes := strB "indices.bin")
    (metadata_filename : Bytes := strB "metadata.json") : Except Err EncodedMesh := do
  let mdBytes ← zipRead z metadata_filename
  let metadata ← match loads mdBytes with
    | some j => Except.ok j
    | none => Except.error Err.formatError
  let vertices ← zipRead z vertices_filename
  let indices ← if (zipNames z).contains indices_filename then do
      let b ← zipRead z indices_filename
      pure (some b)
    else pure none
  let vc ← jsonToInt (← jsonItem metadata (strB "vertex_count"))
  let vs ← jsonToInt (← jsonItem metadata (strB "vertex_size"))
  let icJ ← jsonGet metadata (strB "index_count")
  let ic ← match icJ with
    | none => Except.ok none
    | some j => jsonToOptInt j
  let isz ← jsonToInt (← jsonItem metadata (strB "index_size"))
  pure ⟨vertices, indices, vc, vs, ic, isz⟩

/-! ### arrayutils: multiple named arrays in one archive -/

/-- Per-array metadata entry of `save_arrays_to_zip`. -/
def arraysEntryMeta (name : Bytes) (e : EncodedArray) : Json :=
  .obj [(strB "shape", .arr (e.shape.map natNum)),
        (strB "dtype", .str (dtypeName e.dtype)),
        (strB "itemsize", .num e.itemsize),
        (strB "filename", .str (name ++ strB ".bin"))]

/-- Embedding of `arrayutils.save_arrays_to_zip`: one `<name>.bin` entry per
array in dictionary order, then the collected `metadata.json`. -/
def save_arrays_to_zip (arrays : List (Bytes × NDArray)) : Except Err Zip := do
  let encoded ← arrays.mapM fun p => do
    let e ← encode_array p.2
    pure (p.1, e)
  let entries := encoded.map fun p => (p.1 ++ strB ".bin", p.2.data)
  let all_metadata := Json.obj (encoded.map fun p => (p.1, arraysEntryMeta p.1 p.2))
  pure (entries ++ [(strB "metadata.json", Json.dumps all_metadata)])

/-- Embedding of `arrayutils.load_arrays_from_zip`. -/
def load_arrays_from_zip (z : Zip) : Except Err (List (Bytes × NDArray)) := do
  let mdBytes ← zipRead z (strB "metadata.json")
  let all_metadata ← match loads mdBytes with
    | some j => Except.ok j
    | none => Except.error Err.formatError
  let entries ← match all_metadata with
    | .obj kvs => Except.ok kvs
    | _ => Except.error Err.typeError
  entries.mapM fun p => do
    let fnJ ← jsonItem p.2 (strB "filename")
    let fn ← match fnJ with
      | .str s => Except.ok s
      | _ => Except.error Err.typeError
    let data ← zipRead z fn
    let shape ← jsonToShape (← jsonItem p.2 (strB "shape"))
    let dt ← match (← jsonItem p.2 (strB "dtype")) with
      | .str s => np_dtype s
      | _ => Except.error Err.typeError
    let isz ← jsonToNat (← jsonItem p.2 (strB "itemsize"))
    let decoded ← decode_array ⟨data, shape, dt, isz⟩
    pure (p.1, decoded)

/-! ### ziputils: the combined bundle -/

/-- State of the path a combined bundle is loaded from: absent, present but
not a zip container, or a readable archive. -/
inductive ZipSource where
  | missing
  | corrupt
  | archive (z : Zip)

/-- Rendering of an optional count, `None` becoming JSON null. -/
def jsonOfOptInt : Option Int → Json
  | some c => .num c
  | none => .null

/-- Mesh metadata of the combined bundle: unlike the single-mesh layout,
`index_count` is written unconditionally, null when absent. -/
def combinedMeshMeta (m : EncodedMesh) : Json :=
  .obj [(strB "vertex_count", .num m.vertex_count),
        (strB "vertex_size", .num m.vertex_size),
        (strB "index_count", jsonOfOptInt m.index_count),
        (strB "index_size", .num m.index_size)]

/-- Embedding of `ziputils.save_combined_data_to_zip`.  The result pairs the
outcome with the state left at the target path: validation failures happen
before the archive is opened and leave the path untouched; a failure during
writing leaves the partially written archive and surfaces as the aggregate
IOError carrying the original exception. -/
def save_combined_data_to_zip (encoded_mesh : Option EncodedMesh)
    (encoded_arrays : List (Bytes × EncodedArray)) (metadata : Option Json)
    (fs : ZipSource) (mesh_dir : Bytes := strB "mesh")
    (arrays_dir : Bytes := strB "arrays") : Except Err Unit × ZipSource :=
  match encoded_mesh with
  | none => (.error (.validationError "encoded_mesh cannot be None"), fs)
  | some m =>
    if encoded_arrays.isEmpty then
      (.error (.validationError "encoded_arrays dictionary cannot be empty"), fs)
    else
      -- opening the archive for writing truncates; entries append until a failure
      let e1 : Zip := [(mesh_dir ++ strB "/vertices.bin", m.vertices)]
      match m.indices with
      | none =>
        -- writestr of None raises TypeError, wrapped into the aggregate error
        (.error (.ioError .typeError), .archive e1)
      | some idx =>
        let e3 := e1 ++ [(mesh_dir ++ strB "/indices.bin", idx),
          (mesh_dir ++ strB "/metadata.json", Json.dumps (combinedMeshMeta m))]
        let e4 := e3 ++ encoded_arrays.map fun p =>
          (arrays_dir ++ strB "/" ++ p.1 ++ strB ".bin", p.2.data)
        let e5 := e4 ++ [(arrays_dir ++ strB "/metadata.json",
          Json.dumps (Json.obj (encoded_arrays.map fun p => (p.1, arrayMetaJson p.2))))]
        let e6 := match metadata with
          | some j => e5 ++ [(strB "metadata.json", Json.dumps j)]
          | none => e5
        (.ok (), .archive e6)

/-- Body of `load_combined_data_from_zip` inside its `try`, over a readable
archive. -/
def load_combined_body (z : Zip) (mesh_dir arrays_dir : Bytes) :
    Except Err (EncodedMesh × List (Bytes × EncodedArray) × Option Json) := do
  let mesh_vertices ← zipRead z (mesh_dir ++ strB "/vertices.bin")
  let mesh_indices ← zipRead z (mesh_dir ++ strB "/indices.bin")
  let mm ← match loads (← zipRead z (mesh_dir ++ strB "/metadata.json")) with
    | some j => Except.ok j
    | none => Except.error Err.formatError
  let vc ← jsonToInt (← jsonItem mm (strB "vertex_count"))
  let vs ← jsonToInt (← jsonItem mm (strB "vertex_size"))
  let ic ← jsonToOptInt (← jsonItem mm (strB "index_count"))
  let isz ← jsonToInt (← jsonItem mm (strB "index_size"))
  let encoded_mesh : EncodedMesh := ⟨mesh_vertices, some mesh_indices, vc, vs, ic, isz⟩
  let am ← match loads (← zipRead z (arrays_dir ++ strB "/metadata.json")) with
    | some j => Except.ok j
    | none => Except.error Err.formatError
  let entries ← match am with
    | .obj kvs => Except.ok kvs
    | _ => Except.error Err.typeError
  let encoded_arrays ← entries.mapM fun p => do
    let array_data ← zipRead z (arrays_dir ++ strB "/" ++ p.1 ++ strB ".bin")
    let shape ← jsonToShape (← jsonItem p.2 (strB "shape"))
    let dt ← match (← jsonItem p.2 (strB "dtype")) with
      | .str s => np_dtype s
      | _ => Except.error Err.typeError
    let isz2 ← jsonToNat (← jsonItem p.2 (strB "itemsize"))
    pure (p.1, EncodedArray.mk array_data shape dt isz2)
  let general ← match zipRead z (strB "metadata.json") with
    | .error .keyError => Except.ok none
    | .error e => Except.error e
    | .ok b =>
      match loads b with
      | some j => Except.ok (some j)
      | none => Except.error Err.formatError
  pure (encoded_mesh, encoded_arrays, general)

/-- Embedding of `ziputils.load_combined_data_from_zip`: a missing path is
FileNotFoundError, a corrupt container ValueError, a KeyError from the body
is re-raised as ValueError, and any other exception as the aggregate
IOError. -/
def load_combined_data_from_zip (src : ZipSource)
    (mesh_dir : Bytes := strB "mesh") (arrays_dir : Bytes := strB "arrays") :
    Except Err (EncodedMesh × List (Bytes × EncodedArray) × Option Json) :=
  match src with
  | .missing => .error (.notFoundError "Zip file not found")
  | .corrupt => .error (.validationError "Invalid zip file")
  | .archive z =>
    match load_combined_body z mesh_dir arrays_dir with
    | .ok r => .ok r
    | .error .keyError => .error (.validationError "Missing expected file in zip")
    | .error e => .error (.ioError e)

/-! ### The Mesh composition root (`__init__.py`) -/

/-- Modelled from the spec: `decode_vertex_buffer` of the repository's
decoder module (absent from src/), the §6 vertex-stream decode primitive
wrapped to raise on a nonzero status. -/
def decode_vertex_buffer (vertex_count vertex_size : Int) (buf : Bytes) :
    Except Err (List Int) :=
  match meshopt_decodeVertexBuffer vertex_count.toNat vertex_size.toNat buf with
  | .ok items => .ok items
  | .error code => .error (.decodingError code)

/-- Modelled from the spec: `decode_index_buffer` of the repository's
decoder module (absent from src/), the §6 index-stream decode primitive; the
model reuses the invertible stream shape of the vertex codec. -/
def decode_index_buffer (index_count index_size : Int) (buf : Bytes) :
    Except Err (List Int) :=
  match meshopt_decodeVertexBuffer index_count.toNat index_size.toNat buf with
  | .ok items => .ok items
  | .error code => .error (.decodingError code)

/-- Modelled from the spec: `decode_mesh` (§4.2) decodes the vertex stream
from the carried counts and, when indices are present, requires
`index_count` and decodes the index stream. -/
def decode_mesh (em : EncodedMesh) : Except Err (List Int × Option (List Int)) := do
  let v ← decode_vertex_buffer em.vertex_count em.vertex_size em.vertices
  match em.indices with
  | none => pure (v, none)
  | some ib =>
    match em.index_count with
    | none => Except.error (.validationError "index_count is required to decode indices")
    | some ic => do
      let ix ← decode_index_buffer ic em.index_size ib
      pure (v, some ix)

/-- In-memory mesh of `__init__.Mesh`: buffers are modelled flat, and the
derived counts are the buffer lengths. -/
structure Mesh where
  vertices : List Int
  indices : Option (List Int)
  vertex_count : Nat
  index_count : Nat
deriving DecidableEq

/-- Constructor `Mesh.__init__`: counts derive from the buffers, absent
indices give an index count of zero. -/
def Mesh.ofArrays (vertices : List Int) (indices : Option (List Int)) : Mesh :=
  ⟨vertices, indices, vertices.length, (indices.map List.length).getD 0⟩

/-- Legacy dictionary input of `Mesh.decode`: the `vertices` and `indices`
keys are present, the latter possibly holding `None`. -/
structure LegacyDict where
  vertices : Bytes
  indices : Option Bytes

/-- Argument of `Mesh.decode`: an `EncodedMesh` or a legacy dictionary. -/
inductive DecodeInput where
  | mesh (em : EncodedMesh)
  | legacy (d : LegacyDict)

/-- Embedding of the classmethod `Mesh.decode`. -/
def Mesh.decode (encoded_data : DecodeInput)
    (vertex_count : Option Int := none) (vertex_size : Option Int := none)
    (index_count : Option Int := none) (index_size : Int := 4) : Except Err Mesh :=
  match encoded_data with
  | .mesh em => do
    let vi ← decode_mesh em
    pure (Mesh.ofArrays vi.1 vi.2)
  | .legacy d =>
    match vertex_count, vertex_size with
    | some vc, some vs => do
      let vertices ← decode_vertex_buffer vc vs d.vertices
      let indices ← match d.indices, index_count with
        | some ib, some ic => do
          let r ← decode_index_buffer ic index_size ib
          pure (some r)
        | _, _ => pure (none : Option (List Int))
      pure (Mesh.ofArrays vertices indices)
    | _, _ =>
      .error (.validationError
        "vertex_count and vertex_size must be provided when using dictionary format")

/-! ### Core facts about the array codec -/

/-- Flattened element stream handed to the external codec. -/
def encodeFlattened (array : NDArray) : List Int :=
  if array.dtype ≠ Dtype.float32 then array.data.map castToF32 else array.data

/-- Encoded record `encode_array` produces. -/
def encRec (array : NDArray) : EncodedArray :=
  ⟨meshopt_encodeVertexBuffer (encodeFlattened array) 4, array.shape, array.dtype, 4⟩

theorem encode_array_eq (array : NDArray) : encode_array array = .ok (encRec array) := by
  unfold encode_array encRec encodeFlattened
  simp only [meshopt_encodeVertexBuffer]
  rw [if_neg (by simp)]
  rw [List.take_left]

/-- Values the decoded array carries, element by element. -/
def rtData (array : NDArray) : List Int :=
  if array.dtype ≠ Dtype.float32 then
    (array.data.map castToF32).map (castFromF32 array.dtype)
  else array.data

theorem decode_encode_eq (array : NDArray) (hlen : array.data.length = array.shape.prod) :
    (encode_array array).bind decode_array =
      .ok ⟨array.shape, array.dtype, rtData array⟩ := by
  rw [encode_array_eq]
  show decode_array (encRec array) = _
  unfold decode_array encRec rtData
  simp only []
  have hflat : (encodeFlattened array).length = array.shape.prod := by
    unfold encodeFlattened
    by_cases h : array.dtype ≠ Dtype.float32 <;> simp [h, hlen]
  rw [show array.shape.prod = (encodeFlattened array).length from hflat.symm]
  rw [meshopt_decode_encode (encodeFlattened array) 4]
  unfold encodeFlattened
  by_cases h : array.dtype ≠ Dtype.float32 <;> simp [h]

theorem wrapInt_eq_of_range (w : Nat) (v : Int) (hw : 1 ≤ w)
    (h1 : -(2 ^ (w - 1)) ≤ v) (h2 : v < 2 ^ (w - 1)) : wrapInt w v = v := by
  unfold wrapInt
  have hsplit : (2 : Int) ^ w = 2 ^ (w - 1) * 2 := by
    rw [← pow_succ]
    congr 1
    omega
  have hpos : (0 : Int) < 2 ^ (w - 1) := by positivity
  have hmod : (v + 2 ^ (w - 1)) % 2 ^ w = v + 2 ^ (w - 1) :=
    Int.emod_eq_of_lt (by omega) (by omega)
  rw [hmod]
  omega

theorem castFromF32_eq_of_range (d : Dtype) (v : Int) (h : dtypeInRange d v) :
    castFromF32 d v = v := by
  cases d with
  | float32 => rfl
  | int32 =>
    obtain ⟨h1, h2⟩ := h
    exact wrapInt_eq_of_range 32 v (by omega) (by exact_mod_cast h1) (by exact_mod_cast h2)
  | int64 =>
    obtain ⟨h1, h2⟩ := h
    exact wrapInt_eq_of_range 64 v (by omega) (by exact_mod_cast h1) (by exact_mod_cast h2)

/-- C5: `encode_array` fails with EncodingError exactly when the primitive
reports zero bytes written; on success the record keeps the input's shape
and dtype, its data is the used prefix of the bound-sized buffer, exactly
the primitive's output, which fits the bound, and its `itemsize` is the
float32 width 4 whatever the input dtype was. -/
theorem encode_array_spec (array : NDArray) :
    ((encode_array array = .error .encodingError) ↔
      (meshopt_encodeVertexBuffer (encodeFlattened array) 4).length = 0) ∧
    ∀ r, encode_array array = .ok r →
      r.shape = array.shape ∧ r.dtype = array.dtype ∧ r.itemsize = 4 ∧
      r.data = meshopt_encodeVertexBuffer (encodeFlattened array) 4 ∧
      r.data.length ≤
        meshopt_encodeVertexBufferBound (encodeFlattened array).length 4 := by
  refine ⟨⟨fun h => ?_, fun h => ?_⟩, fun r hr => ?_⟩
  · rw [encode_array_eq] at h
    exact absurd h (by simp)
  · exact absurd h (by simp [meshopt_encodeVertexBuffer])
  · rw [encode_array_eq] at hr
    obtain rfl : encRec array = r := by
      cases hr
      rfl
    refine ⟨rfl, rfl, rfl, rfl, ?_⟩
    show (meshopt_encodeVertexBuffer (encodeFlattened array) 4).length ≤ _
    rw [meshopt_encodeVertexBuffer]
    simp only [List.length_cons, meshopt_encodeVertexBufferBound]
    have hp := packItems_length 4 (encodeFlattened array)
    omega

/-- C1 (amended): the decode of an encode keeps the shape and dtype of any
well-formed array; it is exact for `float32` arrays and for integer arrays
whose values are fixed by float32 rounding; and for integer arrays whose
rounded values stay within the dtype's range, each element is within
relative `2 ^ (-24)` of the original.  Near the signed extreme the rounded
value can leave the range and wrap, which the counterexample exhibits. -/
theorem decode_encode_roundtrip (array : NDArray) (hwf : array.wf) :
    ∃ B : NDArray, (encode_array array).bind decode_array = .ok B ∧
      B.shape = array.shape ∧ B.dtype = array.dtype ∧
      B.data.length = array.data.length ∧
      (array.dtype = .float32 → B.data = array.data) ∧
      (array.dtype ≠ .float32 →
        ((∀ v ∈ array.data, roundF32Int v = v) → B.data = array.data) ∧
        ((∀ v ∈ array.data, dtypeInRange array.dtype (roundF32Int v)) →
          List.Forall₂ (fun b a => 2 ^ 24 * (b - a).natAbs ≤ a.natAbs)
            B.data array.data)) := by
  refine ⟨⟨array.shape, array.dtype, rtData array⟩, decode_encode_eq array hwf.1,
    rfl, rfl, ?_, ?_, ?_⟩
  · unfold rtData
    by_cases h : array.dtype ≠ Dtype.float32 <;> simp [h]
  · intro hf
    unfold rtData
    rw [if_neg (by simp [hf])]
  · intro hne
    constructor
    · intro hround
      unfold rtData
      rw [if_pos hne]
      rw [List.map_map]
      have : ∀ v ∈ array.data, (castFromF32 array.dtype ∘ castToF32) v = id v := by
        intro v hv
        have h1 : castToF32 v = v := hround v hv
        simp only [Function.comp_apply, h1, castToF32]
        rw [hround v hv]
        exact castFromF32_eq_of_range _ _ (hwf.2 v hv)
      rw [List.map_congr_left this, List.map_id]
    · intro hrange
      unfold rtData
      rw [if_pos hne, List.map_map]
      rw [List.forall₂_map_left_iff]
      rw [List.forall₂_same]
      intro v hv
      simp only [Function.comp_apply, castToF32]
      rw [castFromF32_eq_of_range _ _ (hrange v hv)]
      exact roundF32Int_close v

/-- C1 counterexample: the int32 array holding the single value
`2147483647` (not exactly representable in float32) round-trips to
`-2147483648`: the rounding reaches `2 ^ 31`, and the cast back to int32
wraps, so the decoded element is not within any tolerance of the original
(the claim asserts elementwise closeness for every supported array). -/
theorem decode_encode_int32_extreme :
    (encode_array ⟨[1], .int32, [2147483647]⟩).bind decode_array =
      .ok ⟨[1], .int32, [-2147483648]⟩ ∧
    ¬ ((2147483647 : Int) - -2147483648).natAbs ≤ (2147483647 : Int).natAbs := by
  constructor
  · rfl
  · decide

/-! ### Metadata evaluation lemmas -/

theorem listPlain_map_num (l : List Nat) :
    listPlain (l.map natNum) := by
  induction l with
  | nil => trivial
  | cons a t ih => exact ⟨trivial, ih⟩

theorem dtypeName_plain (d : Dtype) : plainBytes (dtypeName d) := by
  cases d <;> decide

theorem arrayMetaJson_plain (e : EncodedArray) : jsonPlain (arrayMetaJson e) :=
  ⟨by decide, listPlain_map_num e.shape, by decide, dtypeName_plain e.dtype,
    by decide, trivial, trivial⟩

theorem np_dtype_name (d : Dtype) : np_dtype (dtypeName d) = .ok d := by
  cases d <;> rfl

theorem mapM_ok_of_forall {α β : Type} (f : α → Except Err β) (g : α → β) :
    ∀ l : List α, (∀ x ∈ l, f x = .ok (g x)) → l.mapM f = .ok (l.map g) := by
  intro l h
  induction l with
  | nil => rfl
  | cons a t ih =>
    rw [List.mapM_cons, h a (by simp), List.map_cons]
    rw [ih fun x hx => h x (by simp [hx])]
    rfl

theorem except_ok_bind {ε α β : Type} (a : α) (f : α → Except ε β) :
    (Except.ok a >>= f) = f a := rfl

theorem jsonToShape_map (l : List Nat) :
    jsonToShape (.arr (l.map natNum)) = .ok l := by
  unfold jsonToShape
  simp only []
  rw [mapM_ok_of_forall _ (fun x => match x with | Json.num i => i.toNat | _ => 0)
    (l.map natNum) ?_]
  · rw [List.map_map]
    congr 1
    rw [show ((fun x => match x with | Json.num i => i.toNat | _ => 0) ∘ natNum) =
      fun n : Nat => n by funext n; exact Int.toNat_natCast n]
    simp
  · intro x hx
    simp only [List.mem_map] at hx
    obtain ⟨n, _, rfl⟩ := hx
    simp [natNum]

theorem jsonToNat_natCast (n : Nat) : jsonToNat (.num (n : Int)) = .ok n := by
  simp [jsonToNat]

/-- C4: the single-asset file round trip restores the record exactly: the
framing is a 4-byte little-endian metadata length, the UTF-8 JSON metadata,
then the raw payload to the end of the file. -/
theorem save_load_file_roundtrip (e : EncodedArray)
    (hlen : (Json.dumps (arrayMetaJson e)).length < 2 ^ 32) :
    ∃ content, save_encoded_array_to_file e = .ok content ∧
      content = packU32 (Json.dumps (arrayMetaJson e)).length ++
        Json.dumps (arrayMetaJson e) ++ e.data ∧
      load_encoded_array_from_file content = .ok e := by
  refine ⟨_, ?_, rfl, ?_⟩
  · unfold save_encoded_array_to_file
    rw [if_pos hlen]
  · rw [List.append_assoc]
    show load_encoded_array_from_file (packU32 (Json.dumps (arrayMetaJson e)).length ++
      (Json.dumps (arrayMetaJson e) ++ e.data)) = .ok e
    simp only [packU32, List.cons_append, List.nil_append]
    unfold load_encoded_array_from_file
    simp only []
    rw [unpackU32_packU32 _ hlen]
    rw [List.take_left, List.drop_left]
    rw [loads_dumps _ (arrayMetaJson_plain e)]
    simp only []
    rw [show jsonItem (arrayMetaJson e) (strB "shape") =
      .ok (.arr (e.shape.map natNum)) from rfl]
    rw [except_ok_bind]
    rw [jsonToShape_map]
    rw [except_ok_bind]
    rw [show jsonItem (arrayMetaJson e) (strB "dtype") =
      .ok (.str (dtypeName e.dtype)) from rfl]
    rw [except_ok_bind]
    simp only []
    rw [np_dtype_name]
    rw [except_ok_bind]
    rw [show jsonItem (arrayMetaJson e) (strB "itemsize") =
      .ok (.num e.itemsize) from rfl]
    rw [except_ok_bind]
    rw [jsonToNat_natCast]
    rw [except_ok_bind]
    rfl

/-- C7 (amended): loading a single-asset file fails with FormatError when
the file is shorter than the 4-byte length prefix, and when the declared
metadata region, truncated at the end of the file, does not parse as JSON.
A file shorter than the declared metadata length is not by itself an error:
when the available region parses as a complete metadata object, the load
succeeds with the remaining (possibly empty) bytes as the payload. -/
theorem load_file_format_errors :
    (∀ content : Bytes, content.length < 4 →
      load_encoded_array_from_file content = .error .formatError) ∧
    (∀ b0 b1 b2 b3 : Nat, ∀ rest : Bytes,
      loads (rest.take (unpackU32 b0 b1 b2 b3)) = none →
      load_encoded_array_from_file (b0 :: b1 :: b2 :: b3 :: rest) =
        .error .formatError) := by
  constructor
  · intro content h
    match content with
    | [] => rfl
    | [_] => rfl
    | [_, _] => rfl
    | [_, _, _] => rfl
    | _ :: _ :: _ :: _ :: t => simp at h; omega
  · intro b0 b1 b2 b3 rest h
    unfold load_encoded_array_from_file
    simp only []
    rw [h]

/-- C7 counterexample: a file whose prefix declares 1000 metadata bytes but
which holds only a complete 47-byte metadata object and nothing else is
shorter than the declared metadata length, yet it loads successfully (with
an empty payload) instead of failing with FormatError. -/
theorem load_file_short_declared_ok :
    load_encoded_array_from_file
      (packU32 1000 ++ Json.dumps (arrayMetaJson ⟨[], [2], .float32, 4⟩)) =
      .ok ⟨[], [2], .float32, 4⟩ ∧
    (packU32 1000 ++ Json.dumps (arrayMetaJson ⟨[], [2], .float32, 4⟩)).length <
      4 + 1000 := by
  constructor
  · rfl
  · decide

theorem meshMetaJson_plain (m : EncodedMesh) : jsonPlain (meshMetaJson m) := by
  obtain ⟨v, i, vc, vs, ic, isz⟩ := m
  cases ic with
  | none =>
    exact ⟨by decide, trivial, by decide, trivial, by decide, trivial, trivial⟩
  | some c =>
    exact ⟨by decide, trivial, by decide, trivial, by decide, trivial, by decide,
      trivial, trivial⟩

/-- C6: the single-mesh archive holds `indices.bin` exactly when the mesh
has indices, its metadata records `index_count` exactly when it is present
(`vertex_count`, `vertex_size`, `index_size` always are), and the archive
round trip restores every field of the record, the `None`-ness of `indices`
and `index_count` included. -/
theorem mesh_zip_roundtrip (m : EncodedMesh) :
    ((zipNames (save_encoded_mesh_to_zip m)).contains (strB "indices.bin") ↔
      m.indices ≠ none) ∧
    ((∃ j, jsonItem (meshMetaJson m) (strB "index_count") = .ok j) ↔
      m.index_count ≠ none) ∧
    load_encoded_mesh_from_zip (save_encoded_mesh_to_zip m) = .ok m := by
  obtain ⟨v, i, vc, vs, ic, isz⟩ := m
  have hload : load_encoded_mesh_from_zip
      (save_encoded_mesh_to_zip ⟨v, i, vc, vs, ic, isz⟩) =
      .ok ⟨v, i, vc, vs, ic, isz⟩ := by
    cases i with
    | none =>
      cases ic with
      | none =>
        unfold load_encoded_mesh_from_zip save_encoded_mesh_to_zip
        rw [show zipRead ([(strB "vertices.bin", v)] ++ [] ++
            [(strB "metadata.json",
              Json.dumps (meshMetaJson ⟨v, none, vc, vs, none, isz⟩))])
            (strB "metadata.json") =
          .ok (Json.dumps (meshMetaJson ⟨v, none, vc, vs, none, isz⟩)) from rfl]
        rw [except_ok_bind]
        simp only []
        rw [loads_dumps _ (meshMetaJson_plain ⟨v, none, vc, vs, none, isz⟩)]
        rfl
      | some c =>
        unfold load_encoded_mesh_from_zip save_encoded_mesh_to_zip
        rw [show zipRead ([(strB "vertices.bin", v)] ++ [] ++
            [(strB "metadata.json",
              Json.dumps (meshMetaJson ⟨v, none, vc, vs, some c, isz⟩))])
            (strB "metadata.json") =
          .ok (Json.dumps (meshMetaJson ⟨v, none, vc, vs, some c, isz⟩)) from rfl]
        rw [except_ok_bind]
        simp only []
        rw [loads_dumps _ (meshMetaJson_plain ⟨v, none, vc, vs, some c, isz⟩)]
        rfl
    | some ib =>
      cases ic with
      | none =>
        unfold load_encoded_mesh_from_zip save_encoded_mesh_to_zip
        rw [show zipRead ([(strB "vertices.bin", v)] ++ [(strB "indices.bin", ib)] ++
            [(strB "metadata.json",
              Json.dumps (meshMetaJson ⟨v, some ib, vc, vs, none, isz⟩))])
            (strB "metadata.json") =
          .ok (Json.dumps (meshMetaJson ⟨v, some ib, vc, vs, none, isz⟩)) from rfl]
        rw [except_ok_bind]
        simp only []
        rw [loads_dumps _ (meshMetaJson_plain ⟨v, some ib, vc, vs, none, isz⟩)]
        rfl
      | some c =>
        unfold load_encoded_mesh_from_zip save_encoded_mesh_to_zip
        rw [show zipRead ([(strB "vertices.bin", v)] ++ [(strB "indices.bin", ib)] ++
            [(strB "metadata.json",
              Json.dumps (meshMetaJson ⟨v, some ib, vc, vs, some c, isz⟩))])
            (strB "metadata.json") =
          .ok (Json.dumps (meshMetaJson ⟨v, some ib, vc, vs, some c, isz⟩)) from rfl]
        rw [except_ok_bind]
        simp only []
        rw [loads_dumps _ (meshMetaJson_plain ⟨v, some ib, vc, vs, some c, isz⟩)]
        rfl
  refine ⟨?_, ?_, hload⟩
  · cases i <;> (simp [save_encoded_mesh_to_zip, zipNames]; try decide)
  · cases ic with
    | none =>
      constructor
      · rintro ⟨j, hj⟩
        rw [show jsonItem (meshMetaJson ⟨v, i, vc, vs, none, isz⟩)
          (strB "index_count") = .error .keyError from rfl] at hj
        cases hj
      · intro h
        exact absurd rfl h
    | some c =>
      constructor
      · intro _
        simp
      · intro _
        exact ⟨.num c, rfl⟩

/-! ### Archive lookup lemmas -/

theorem zipFind_append (xs ys : Zip) (n : Bytes) :
    zipFind (xs ++ ys) n =
      match zipFind ys n with
      | some r => some r
      | none => zipFind xs n := by
  induction xs with
  | nil =>
    simp only [List.nil_append]
    cases zipFind ys n <;> simp [zipFind]
  | cons p t ih =>
    obtain ⟨pn, pb⟩ := p
    simp only [List.cons_append, zipFind, List.append_eq]
    rw [ih]
    cases hys : zipFind ys n <;> cases ht : zipFind t n <;> simp

theorem zipFind_map_none {α : Type} (l : List α) (g : α → Bytes × Bytes) (n : Bytes)
    (h : ∀ p ∈ l, (g p).1 ≠ n) : zipFind (l.map g) n = none := by
  induction l with
  | nil => rfl
  | cons a t ih =>
    simp only [List.map_cons, zipFind]
    rw [ih fun p hp => h p (by simp [hp])]
    rw [if_neg (h a (by simp))]

theorem bin_ne_metadata (nm : Bytes) : nm ++ strB ".bin" ≠ strB "metadata.json" := by
  intro h
  have hrev := congrArg List.reverse h
  rw [List.reverse_append] at hrev
  simp [strB] at hrev

theorem bin_injective (a b : Bytes) (h : a ++ strB ".bin" = b ++ strB ".bin") : a = b :=
  List.append_left_injective _ h

/-- Entry resolution in the archive `save_arrays_to_zip` writes: with
pairwise distinct names, each `<name>.bin` resolves to that array's payload. -/
theorem zipFind_saved_bin (l : List (Bytes × NDArray))
    (hnodup : (l.map Prod.fst).Nodup) (nm : Bytes) (a : NDArray)
    (hmem : (nm, a) ∈ l) :
    zipFind (l.map fun p => (p.1 ++ strB ".bin", (encRec p.2).data))
      (nm ++ strB ".bin") = some (encRec a).data := by
  induction l with
  | nil => cases hmem
  | cons p t ih =>
    simp only [List.map_cons, zipFind]
    rcases List.mem_cons.mp hmem with heq | htail
    · subst heq
      have hnot : nm ∉ t.map Prod.fst := by
        simp only [List.map_cons, List.nodup_cons] at hnodup
        exact hnodup.1
      rw [zipFind_map_none t _ _ ?_]
      · rw [if_pos rfl]
      · intro q hq hc
        exact hnot (by
          have : q.1 = nm := bin_injective _ _ hc
          rw [← this]
          exact List.mem_map_of_mem Prod.fst hq)
    · have hnodup2 : (t.map Prod.fst).Nodup := by
        simp only [List.map_cons, List.nodup_cons] at hnodup
        exact hnodup.2
      rw [ih hnodup2 htail]

theorem mapM_map_ok {α β γ : Type} (h : α → β) (f : β → Except Err γ) (g : α → γ) :
    ∀ l : List α, (∀ x ∈ l, f (h x) = .ok (g x)) → (l.map h).mapM f = .ok (l.map g) := by
  intro l hl
  induction l with
  | nil => rfl
  | cons a t ih =>
    rw [List.map_cons, List.mapM_cons, hl a (by simp), List.map_cons]
    rw [ih fun x hx => hl x (by simp [hx])]
    rfl

theorem plainBytes_append (a b : Bytes) (ha : plainBytes a) (hb : plainBytes b) :
    plainBytes (a ++ b) := by
  intro x hx
  rcases List.mem_append.mp hx with h | h
  · exact ha x h
  · exact hb x h

theorem arraysEntryMeta_plain (nm : Bytes) (e : EncodedArray) (hnm : plainBytes nm) :
    jsonPlain (arraysEntryMeta nm e) :=
  ⟨by decide, listPlain_map_num e.shape, by decide, dtypeName_plain e.dtype,
    by decide, trivial, by decide,
    plainBytes_append nm (strB ".bin") hnm (by decide), trivial⟩

theorem arraysMetaObj_plain (l : List (Bytes × NDArray))
    (hp : ∀ p ∈ l, plainBytes p.1) :
    jsonPlain (Json.obj (l.map fun p => (p.1, arraysEntryMeta p.1 (encRec p.2)))) := by
  show objPlain (l.map fun p => (p.1, arraysEntryMeta p.1 (encRec p.2)))
  induction l with
  | nil => trivial
  | cons p t ih =>
    exact ⟨hp p (by simp), arraysEntryMeta_plain p.1 (encRec p.2) (hp p (by simp)),
      ih fun q hq => hp q (by simp [hq])⟩

theorem decode_encRec (a : NDArray) (hlen : a.data.length = a.shape.prod) :
    decode_array (encRec a) = .ok ⟨a.shape, a.dtype, rtData a⟩ := by
  have h := decode_encode_eq a hlen
  rw [encode_array_eq] at h
  exact h

/-- C8: for a non-empty named-array dictionary with distinct plain names,
the multi-array archive round trip returns exactly the same key set in
order, each entry being the array-codec round trip of the corresponding
input array (its payload stored under `<name>.bin`, its shape, dtype,
itemsize and filename recorded in `metadata.json`). -/
theorem arrays_zip_roundtrip (arrays : List (Bytes × NDArray))
    (_hne : arrays ≠ [])
    (hnodup : (arrays.map Prod.fst).Nodup)
    (hplain : ∀ p ∈ arrays, plainBytes p.1)
    (hwf : ∀ p ∈ arrays, p.2.wf) :
    ∃ z res, save_arrays_to_zip arrays = .ok z ∧
      load_arrays_from_zip z = .ok res ∧
      res.map Prod.fst = arrays.map Prod.fst ∧
      List.Forall₂ (fun q p => q.1 = p.1 ∧
        (encode_array p.2).bind decode_array = .ok q.2) res arrays := by
  have hsave : save_arrays_to_zip arrays = .ok
      ((arrays.map fun p => (p.1 ++ strB ".bin", (encRec p.2).data)) ++
        [(strB "metadata.json", Json.dumps
          (Json.obj (arrays.map fun p => (p.1, arraysEntryMeta p.1 (encRec p.2)))))]) := by
    unfold save_arrays_to_zip
    rw [mapM_ok_of_forall _ (fun p => (p.1, encRec p.2)) arrays
      (fun p _ => by rw [encode_array_eq]; rfl)]
    rw [except_ok_bind]
    simp only [List.map_map]
    rfl
  refine ⟨_, arrays.map fun p =>
    (p.1, NDArray.mk p.2.shape p.2.dtype (rtData p.2)), hsave, ?_, ?_, ?_⟩
  · unfold load_arrays_from_zip
    have hmd : zipRead
        ((arrays.map fun p => (p.1 ++ strB ".bin", (encRec p.2).data)) ++
          [(strB "metadata.json", Json.dumps
            (Json.obj (arrays.map fun p => (p.1, arraysEntryMeta p.1 (encRec p.2)))))])
        (strB "metadata.json") = .ok (Json.dumps
          (Json.obj (arrays.map fun p => (p.1, arraysEntryMeta p.1 (encRec p.2))))) := by
      unfold zipRead
      rw [zipFind_append]
      rfl
    rw [hmd, except_ok_bind]
    rw [loads_dumps _ (arraysMetaObj_plain arrays hplain)]
    simp only []
    rw [except_ok_bind]
    simp only []
    rw [except_ok_bind]
    rw [mapM_map_ok (fun p => (p.1, arraysEntryMeta p.1 (encRec p.2))) _
      (fun p => (p.1, NDArray.mk p.2.shape p.2.dtype (rtData p.2))) arrays ?_]
    intro p hp
    rw [show jsonItem (arraysEntryMeta p.1 (encRec p.2)) (strB "filename") =
      .ok (.str (p.1 ++ strB ".bin")) from rfl]
    rw [except_ok_bind]
    simp only []
    have hbin : zipRead
        ((arrays.map fun q => (q.1 ++ strB ".bin", (encRec q.2).data)) ++
          [(strB "metadata.json", Json.dumps
            (Json.obj (arrays.map fun q => (q.1, arraysEntryMeta q.1 (encRec q.2)))))])
        (p.1 ++ strB ".bin") = .ok (encRec p.2).data := by
      unfold zipRead
      rw [zipFind_append]
      rw [show zipFind [(strB "metadata.json", Json.dumps
          (Json.obj (arrays.map fun q => (q.1, arraysEntryMeta q.1 (encRec q.2)))))]
          (p.1 ++ strB ".bin") = none by
        show (match (none : Option Bytes) with
          | some r => some r
          | none => if strB "metadata.json" = p.1 ++ strB ".bin" then some _ else none) = none
        rw [if_neg fun hc => bin_ne_metadata p.1 hc.symm]]
      rw [zipFind_saved_bin arrays hnodup p.1 p.2 hp]
    rw [except_ok_bind, hbin, except_ok_bind]
    rw [show jsonItem (arraysEntryMeta p.1 (encRec p.2)) (strB "shape") =
      .ok (.arr (p.2.shape.map natNum)) from rfl]
    rw [except_ok_bind, jsonToShape_map, except_ok_bind]
    rw [show jsonItem (arraysEntryMeta p.1 (encRec p.2)) (strB "dtype") =
      .ok (.str (dtypeName p.2.dtype)) from rfl]
    rw [except_ok_bind]
    simp only []
    rw [np_dtype_name, except_ok_bind]
    rw [show jsonItem (arraysEntryMeta p.1 (encRec p.2)) (strB "itemsize") =
      .ok (.num (4 : Nat)) from rfl]
    rw [except_ok_bind, jsonToNat_natCast, except_ok_bind]
    rw [show (⟨(encRec p.2).data, p.2.shape, p.2.dtype, 4⟩ : EncodedArray) =
      encRec p.2 from rfl]
    rw [decode_encRec p.2 (hwf p hp).1, except_ok_bind]
    rfl
  · rw [List.map_map]
    rfl
  · rw [List.forall₂_map_left_iff, List.forall₂_same]
    intro p hp
    exact ⟨rfl, decode_encode_eq p.2 (hwf p hp).1⟩

/-! ### Combined-bundle lemmas -/

theorem ne_of_take (k : Nat) (a b : Bytes) (h : a.take k ≠ b.take k) : a ≠ b :=
  fun he => h (he ▸ rfl)

theorem jsonToOptInt_ofOptInt (ic : Option Int) :
    jsonToOptInt (jsonOfOptInt ic) = .ok ic := by
  cases ic <;> rfl

theorem combinedMeshMeta_plain (m : EncodedMesh) : jsonPlain (combinedMeshMeta m) := by
  obtain ⟨v, i, vc, vs, ic, isz⟩ := m
  cases ic with
  | none =>
    exact ⟨by decide, trivial, by decide, trivial, by decide, trivial, by decide,
      trivial, trivial⟩
  | some c =>
    exact ⟨by decide, trivial, by decide, trivial, by decide, trivial, by decide,
      trivial, trivial⟩

theorem combinedArraysMeta_plain (l : List (Bytes × EncodedArray))
    (hp : ∀ p ∈ l, plainBytes p.1) :
    jsonPlain (Json.obj (l.map fun p => (p.1, arrayMetaJson p.2))) := by
  show objPlain (l.map fun p => (p.1, arrayMetaJson p.2))
  induction l with
  | nil => trivial
  | cons p t ih =>
    exact ⟨hp p (by simp), arrayMetaJson_plain p.2, ih fun q hq => hp q (by simp [hq])⟩

/-- Name of an array payload entry inside the combined bundle. -/
def combinedBinName (nm : Bytes) : Bytes :=
  strB "arrays" ++ (strB "/" ++ (nm ++ strB ".bin"))

theorem combinedBinName_injective (a b : Bytes)
    (h : combinedBinName a = combinedBinName b) : a = b := by
  unfold combinedBinName at h
  have h1 := List.append_cancel_left h
  have h2 := List.append_cancel_left h1
  exact bin_injective _ _ h2

theorem combinedBinName_ne_arraysMeta (nm : Bytes) :
    strB "arrays" ++ strB "/metadata.json" ≠ combinedBinName nm := by
  intro h
  unfold combinedBinName at h
  have h1 := List.append_cancel_left h
  have h2 : strB "metadata.json" = nm ++ strB ".bin" := by
    have : (47 : Nat) :: strB "metadata.json" = 47 :: (nm ++ strB ".bin") := h1
    exact List.cons_injective this
  exact bin_ne_metadata nm h2.symm

theorem zipFind_combined_bin (l : List (Bytes × EncodedArray))
    (hnodup : (l.map Prod.fst).Nodup) (nm : Bytes) (e : EncodedArray)
    (hmem : (nm, e) ∈ l) :
    zipFind (l.map fun p => (combinedBinName p.1, p.2.data))
      (combinedBinName nm) = some e.data := by
  induction l with
  | nil => cases hmem
  | cons p t ih =>
    simp only [List.map_cons, zipFind]
    rcases List.mem_cons.mp hmem with heq | htail
    · subst heq
      have hnot : nm ∉ t.map Prod.fst := by
        simp only [List.map_cons, List.nodup_cons] at hnodup
        exact hnodup.1
      rw [zipFind_map_none t _ _ ?_]
      · rw [if_pos rfl]
      · intro q hq hc
        exact hnot (by
          have : q.1 = nm := combinedBinName_injective _ _ hc
          rw [← this]
          exact List.mem_map_of_mem Prod.fst hq)
    · have hnodup2 : (t.map Prod.fst).Nodup := by
        simp only [List.map_cons, List.nodup_cons] at hnodup
        exact hnodup.2
      rw [ih hnodup2 htail]

/-- C3: saving a combined bundle validates before opening the archive: a
missing mesh or an empty array map raises ValidationError with the target
path untouched; every other failure surfaces as the single aggregate
IOError whose context holds the original cause. -/
theorem save_combined_validation (mesh? : Option EncodedMesh)
    (arrays : List (Bytes × EncodedArray)) (meta : Option Json) (fs : ZipSource) :
    (mesh? = none ∨ arrays = [] →
      ∃ msg, (save_combined_data_to_zip mesh? arrays meta fs).1 =
        .error (.validationError msg) ∧
        (save_combined_data_to_zip mesh? arrays meta fs).2 = fs) ∧
    (∀ e, (save_combined_data_to_zip mesh? arrays meta fs).1 = .error e →
      (∃ msg, e = .validationError msg ∧
        (save_combined_data_to_zip mesh? arrays meta fs).2 = fs) ∨
      ∃ c, e = .ioError c) := by
  constructor
  · intro h
    cases mesh? with
    | none => exact ⟨"encoded_mesh cannot be None", rfl, rfl⟩
    | some m =>
      rcases h with h | h
      · cases h
      · subst h
        exact ⟨"encoded_arrays dictionary cannot be empty", rfl, rfl⟩
  · intro e he
    cases mesh? with
    | none =>
      left
      have h2 : Except.error (Err.validationError "encoded_mesh cannot be None") =
        (Except.error e : Except Err Unit) := he
      injection h2 with h3
      exact ⟨"encoded_mesh cannot be None", h3.symm, rfl⟩
    | some m =>
      cases arrays with
      | nil =>
        left
        have h2 : Except.error
          (Err.validationError "encoded_arrays dictionary cannot be empty") =
          (Except.error e : Except Err Unit) := he
        injection h2 with h3
        exact ⟨"encoded_arrays dictionary cannot be empty", h3.symm, rfl⟩
      | cons a t =>
        obtain ⟨mv, mi, mvc, mvs, mic, misz⟩ := m
        cases mi with
        | none =>
          right
          have h2 : Except.error (Err.ioError .typeError) =
            (Except.error e : Except Err Unit) := he
          injection h2 with h3
          exact ⟨.typeError, h3.symm⟩
        | some idx =>
          exact absurd he (by
            intro hc
            exact Except.noConfusion
              (show (Except.ok () : Except Err Unit) = .error e from hc))

/-- C9: the combined-bundle save writes `mesh/indices.bin` unconditionally,
so a mesh without indices always fails: past the validation checks the
failure is the aggregate IOError wrapping the TypeError of writing `None`,
and no bundle (with or without an indices entry) is ever produced. -/
theorem save_combined_missing_indices (m : EncodedMesh)
    (arrays : List (Bytes × EncodedArray)) (meta : Option Json) (fs : ZipSource)
    (h : m.indices = none) :
    (arrays ≠ [] → save_combined_data_to_zip (some m) arrays meta fs =
      (.error (.ioError .typeError),
        .archive [(strB "mesh" ++ strB "/vertices.bin", m.vertices)])) ∧
    ∀ u, (save_combined_data_to_zip (some m) arrays meta fs).1 ≠ .ok u := by
  obtain ⟨mv, mi, mvc, mvs, mic, misz⟩ := m
  cases h
  constructor
  · intro hne
    cases arrays with
    | nil => exact absurd rfl hne
    | cons a t => rfl
  · intro u hu
    cases arrays with
    | nil =>
      exact Except.noConfusion (show Except.error
        (Err.validationError "encoded_arrays dictionary cannot be empty") =
        (Except.ok u : Except Err Unit) from hu)
    | cons a t =>
      exact Except.noConfusion (show Except.error (Err.ioError .typeError) =
        (Except.ok u : Except Err Unit) from hu)

/-- C2 counterexample: an archive that is a valid zip container but lacks
every required entry fails with ValidationError ("Missing expected file in
zip"), not with NotFoundError as the claim states; NotFoundError is
reserved for a missing archive path. -/
theorem load_combined_empty_archive :
    load_combined_data_from_zip (.archive []) =
      .error (.validationError "Missing expected file in zip") := rfl

theorem zipFind_singleton_eq (n b : Bytes) : zipFind [(n, b)] n = some b := by
  simp [zipFind]

theorem zipFind_singleton_ne (n1 b n2 : Bytes) (h : n1 ≠ n2) :
    zipFind [(n1, b)] n2 = none := by
  simp [zipFind, h]

theorem zipFind_pair_ne (n1 b1 n2 b2 n : Bytes) (h1 : n1 ≠ n) (h2 : n2 ≠ n) :
    zipFind [(n1, b1), (n2, b2)] n = none := by
  simp [zipFind, h1, h2]

theorem zipFind_pair_first (n1 b1 n2 b2 : Bytes) (h2 : n2 ≠ n1) :
    zipFind [(n1, b1), (n2, b2)] n1 = some b1 := by
  simp [zipFind, h2]

theorem zipFind_pair_second (n1 b1 n2 b2 : Bytes) :
    zipFind [(n1, b1), (n2, b2)] n2 = some b2 := by
  simp [zipFind]

theorem combined_bin_ne_of_head (nm other : Bytes) (h : other.take 1 ≠ [97]) :
    combinedBinName nm ≠ other := by
  intro hc
  apply h
  rw [← hc]
  rfl

/-- C2 (amended): loading a combined bundle fails with ValidationError when
the archive is not a valid zip container, with NotFoundError only when the
archive path itself is missing, and with ValidationError — not
NotFoundError — when a required entry is absent ("Missing expected file in
zip", re-raised from the KeyError): the cases cover `mesh/vertices.bin`,
`mesh/indices.bin`, `mesh/metadata.json`, `arrays/metadata.json` and a
listed array's `.bin` file; the optional top-level `metadata.json` is not
required: a bundle saved without it loads with a `none` general metadata
component. -/
theorem load_combined_spec :
    (load_combined_data_from_zip .corrupt =
      .error (.validationError "Invalid zip file")) ∧
    (load_combined_data_from_zip .missing =
      .error (.notFoundError "Zip file not found")) ∧
    (∀ z, zipFind z (strB "mesh" ++ strB "/vertices.bin") = none →
      load_combined_data_from_zip (.archive z) =
        .error (.validationError "Missing expected file in zip")) ∧
    (∀ z v, zipFind z (strB "mesh" ++ strB "/vertices.bin") = some v →
      zipFind z (strB "mesh" ++ strB "/indices.bin") = none →
      load_combined_data_from_zip (.archive z) =
        .error (.validationError "Missing expected file in zip")) ∧
    (∀ z v i, zipFind z (strB "mesh" ++ strB "/vertices.bin") = some v →
      zipFind z (strB "mesh" ++ strB "/indices.bin") = some i →
      zipFind z (strB "mesh" ++ strB "/metadata.json") = none →
      load_combined_data_from_zip (.archive z) =
        .error (.validationError "Missing expected file in zip")) ∧
    (∀ z v i (em : EncodedMesh),
      zipFind z (strB "mesh" ++ strB "/vertices.bin") = some v →
      zipFind z (strB "mesh" ++ strB "/indices.bin") = some i →
      zipFind z (strB "mesh" ++ strB "/metadata.json") =
        some (Json.dumps (combinedMeshMeta em)) →
      zipFind z (strB "arrays" ++ strB "/metadata.json") = none →
      load_combined_data_from_zip (.archive z) =
        .error (.validationError "Missing expected file in zip")) ∧
    (∀ z v i (em : EncodedMesh) (nm : Bytes) (e : EncodedArray)
      (rest : List (Bytes × EncodedArray)),
      (∀ p ∈ (nm, e) :: rest, plainBytes p.1) →
      zipFind z (strB "mesh" ++ strB "/vertices.bin") = some v →
      zipFind z (strB "mesh" ++ strB "/indices.bin") = some i →
      zipFind z (strB "mesh" ++ strB "/metadata.json") =
        some (Json.dumps (combinedMeshMeta em)) →
      zipFind z (strB "arrays" ++ strB "/metadata.json") =
        some (Json.dumps (Json.obj
          (((nm, e) :: rest).map fun p => (p.1, arrayMetaJson p.2)))) →
      zipFind z (strB "arrays" ++ strB "/" ++ nm ++ strB ".bin") = none →
      load_combined_data_from_zip (.archive z) =
        .error (.validationError "Missing expected file in zip")) ∧
    (∀ (m : EncodedMesh) (idx : Bytes) (arrays : List (Bytes × EncodedArray))
      (fs : ZipSource), m.indices = some idx →
      (arrays.map Prod.fst).Nodup → (∀ p ∈ arrays, plainBytes p.1) → arrays ≠ [] →
      ∃ z, save_combined_data_to_zip (some m) arrays none fs = (.ok (), .archive z) ∧
        load_combined_data_from_zip (.archive z) = .ok (m, arrays, none)) := by
  refine ⟨rfl, rfl, ?_, ?_, ?_, ?_, ?_, ?_⟩
  · intro z h
    unfold load_combined_data_from_zip load_combined_body
    simp only []
    rw [show zipRead z (strB "mesh" ++ strB "/vertices.bin") = .error .keyError by
      unfold zipRead; rw [h]]
    rfl
  · intro z v hv hi
    unfold load_combined_data_from_zip load_combined_body
    simp only []
    rw [show zipRead z (strB "mesh" ++ strB "/vertices.bin") = .ok v by
      unfold zipRead; rw [hv]]
    rw [show zipRead z (strB "mesh" ++ strB "/indices.bin") = .error .keyError by
      unfold zipRead; rw [hi]]
    rfl
  · intro z v i hv hi hmm2
    unfold load_combined_data_from_zip load_combined_body
    simp only []
    rw [show zipRead z (strB "mesh" ++ strB "/vertices.bin") = .ok v by
      unfold zipRead; rw [hv]]
    rw [show zipRead z (strB "mesh" ++ strB "/indices.bin") = .ok i by
      unfold zipRead; rw [hi]]
    rw [show zipRead z (strB "mesh" ++ strB "/metadata.json") = .error .keyError by
      unfold zipRead; rw [hmm2]]
    rfl
  · intro z v i em hv hi hmm hamd
    unfold load_combined_data_from_zip load_combined_body
    simp only []
    rw [show zipRead z (strB "mesh" ++ strB "/vertices.bin") = .ok v by
      unfold zipRead; rw [hv]]
    rw [except_ok_bind]
    rw [show zipRead z (strB "mesh" ++ strB "/indices.bin") = .ok i by
      unfold zipRead; rw [hi]]
    rw [except_ok_bind]
    rw [show zipRead z (strB "mesh" ++ strB "/metadata.json") =
      .ok (Json.dumps (combinedMeshMeta em)) by unfold zipRead; rw [hmm]]
    rw [except_ok_bind]
    rw [loads_dumps _ (combinedMeshMeta_plain em)]
    simp only []
    rw [except_ok_bind]
    rw [show jsonItem (combinedMeshMeta em) (strB "vertex_count") =
      .ok (.num em.vertex_count) from rfl]
    rw [except_ok_bind]
    rw [show jsonToInt (.num em.vertex_count) = .ok em.vertex_count from rfl,
      except_ok_bind]
    rw [show jsonItem (combinedMeshMeta em) (strB "vertex_size") =
      .ok (.num em.vertex_size) from rfl]
    rw [except_ok_bind]
    rw [show jsonToInt (.num em.vertex_size) = .ok em.vertex_size from rfl,
      except_ok_bind]
    rw [show jsonItem (combinedMeshMeta em) (strB "index_count") =
      .ok (jsonOfOptInt em.index_count) from rfl]
    rw [except_ok_bind]
    rw [jsonToOptInt_ofOptInt, except_ok_bind]
    rw [show jsonItem (combinedMeshMeta em) (strB "index_size") =
      .ok (.num em.index_size) from rfl]
    rw [except_ok_bind]
    rw [show jsonToInt (.num em.index_size) = .ok em.index_size from rfl,
      except_ok_bind]
    rw [show zipRead z (strB "arrays" ++ strB "/metadata.json") = .error .keyError by
      unfold zipRead; rw [hamd]]
    rfl
  · intro z v i em nm e rest hplain hv hi hmm hamd hbin
    unfold load_combined_data_from_zip load_combined_body
    simp only []
    rw [show zipRead z (strB "mesh" ++ strB "/vertices.bin") = .ok v by
      unfold zipRead; rw [hv]]
    rw [except_ok_bind]
    rw [show zipRead z (strB "mesh" ++ strB "/indices.bin") = .ok i by
      unfold zipRead; rw [hi]]
    rw [except_ok_bind]
    rw [show zipRead z (strB "mesh" ++ strB "/metadata.json") =
      .ok (Json.dumps (combinedMeshMeta em)) by unfold zipRead; rw [hmm]]
    rw [except_ok_bind]
    rw [loads_dumps _ (combinedMeshMeta_plain em)]
    simp only []
    rw [except_ok_bind]
    rw [show jsonItem (combinedMeshMeta em) (strB "vertex_count") =
      .ok (.num em.vertex_count) from rfl]
    rw [except_ok_bind]
    rw [show jsonToInt (.num em.vertex_count) = .ok em.vertex_count from rfl,
      except_ok_bind]
    rw [show jsonItem (combinedMeshMeta em) (strB "vertex_size") =
      .ok (.num em.vertex_size) from rfl]
    rw [except_ok_bind]
    rw [show jsonToInt (.num em.vertex_size) = .ok em.vertex_size from rfl,
      except_ok_bind]
    rw [show jsonItem (combinedMeshMeta em) (strB "index_count") =
      .ok (jsonOfOptInt em.index_count) from rfl]
    rw [except_ok_bind]
    rw [jsonToOptInt_ofOptInt, except_ok_bind]
    rw [show jsonItem (combinedMeshMeta em) (strB "index_size") =
      .ok (.num em.index_size) from rfl]
    rw [except_ok_bind]
    rw [show jsonToInt (.num em.index_size) = .ok em.index_size from rfl,
      except_ok_bind]
    rw [show zipRead z (strB "arrays" ++ strB "/metadata.json") =
      .ok (Json.dumps (Json.obj
        (((nm, e) :: rest).map fun p => (p.1, arrayMetaJson p.2)))) by
      unfold zipRead; rw [hamd]]
    rw [except_ok_bind]
    rw [loads_dumps _ (combinedArraysMeta_plain ((nm, e) :: rest) hplain)]
    simp only []
    rw [except_ok_bind]
    simp only []
    rw [except_ok_bind]
    rw [List.map_cons, List.mapM_cons]
    simp only []
    rw [show zipRead z (strB "arrays" ++ strB "/" ++ nm ++ strB ".bin") =
      .error .keyError by unfold zipRead; rw [hbin]]
    rfl
  · intro m idx arrays fs hidx hnodup hplain hne
    obtain ⟨mv, mi, mvc, mvs, mic, misz⟩ := m
    cases hidx
    refine ⟨(([(strB "mesh" ++ strB "/vertices.bin", mv)] ++
        [(strB "mesh" ++ strB "/indices.bin", idx),
         (strB "mesh" ++ strB "/metadata.json", Json.dumps
           (combinedMeshMeta ⟨mv, some idx, mvc, mvs, mic, misz⟩))]) ++
        arrays.map (fun p => (combinedBinName p.1, p.2.data))) ++
        [(strB "arrays" ++ strB "/metadata.json", Json.dumps
          (Json.obj (arrays.map fun p => (p.1, arrayMetaJson p.2))))], ?_, ?_⟩
    · unfold save_combined_data_to_zip
      simp only []
      rw [if_neg (by simpa [List.isEmpty_iff] using hne)]
      rfl
    · set Z := (([(strB "mesh" ++ strB "/vertices.bin", mv)] ++
        [(strB "mesh" ++ strB "/indices.bin", idx),
         (strB "mesh" ++ strB "/metadata.json", Json.dumps
           (combinedMeshMeta ⟨mv, some idx, mvc, mvs, mic, misz⟩))]) ++
        arrays.map (fun p => (combinedBinName p.1, p.2.data))) ++
        [(strB "arrays" ++ strB "/metadata.json", Json.dumps
          (Json.obj (arrays.map fun p => (p.1, arrayMetaJson p.2))))] with hZ
      have hV : zipRead Z (strB "mesh" ++ strB "/vertices.bin") = .ok mv := by
        unfold zipRead
        rw [hZ, zipFind_append, zipFind_singleton_ne _ _ _ (by decide),
          zipFind_append,
          zipFind_map_none arrays _ _
            (fun p _ => combined_bin_ne_of_head p.1 _ (by decide)),
          zipFind_append, zipFind_pair_ne _ _ _ _ _ (by decide) (by decide),
          zipFind_singleton_eq]
      have hI : zipRead Z (strB "mesh" ++ strB "/indices.bin") = .ok idx := by
        unfold zipRead
        rw [hZ, zipFind_append, zipFind_singleton_ne _ _ _ (by decide),
          zipFind_append,
          zipFind_map_none arrays _ _
            (fun p _ => combined_bin_ne_of_head p.1 _ (by decide)),
          zipFind_append, zipFind_pair_first _ _ _ _ (by decide)]
      have hMM : zipRead Z (strB "mesh" ++ strB "/metadata.json") =
          .ok (Json.dumps (combinedMeshMeta ⟨mv, some idx, mvc, mvs, mic, misz⟩)) := by
        unfold zipRead
        rw [hZ, zipFind_append, zipFind_singleton_ne _ _ _ (by decide),
          zipFind_append,
          zipFind_map_none arrays _ _
            (fun p _ => combined_bin_ne_of_head p.1 _ (by decide)),
          zipFind_append, zipFind_pair_second]
      have hAMD : zipRead Z (strB "arrays" ++ strB "/metadata.json") =
          .ok (Json.dumps (Json.obj (arrays.map fun p => (p.1, arrayMetaJson p.2)))) := by
        unfold zipRead
        rw [hZ, zipFind_append, zipFind_singleton_eq]
      have hGEN : zipRead Z (strB "metadata.json") = .error .keyError := by
        unfold zipRead
        rw [hZ, zipFind_append, zipFind_singleton_ne _ _ _ (by decide),
          zipFind_append,
          zipFind_map_none arrays _ _
            (fun p _ => combined_bin_ne_of_head p.1 _ (by decide)),
          zipFind_append, zipFind_pair_ne _ _ _ _ _ (by decide) (by decide),
          zipFind_singleton_ne _ _ _ (by decide)]
      unfold load_combined_data_from_zip load_combined_body
      simp only []
      rw [hV, except_ok_bind, hI, except_ok_bind, hMM, except_ok_bind]
      rw [loads_dumps _ (combinedMeshMeta_plain ⟨mv, some idx, mvc, mvs, mic, misz⟩)]
      simp only []
      rw [except_ok_bind]
      rw [show jsonItem (combinedMeshMeta ⟨mv, some idx, mvc, mvs, mic, misz⟩)
        (strB "vertex_count") = .ok (.num mvc) from rfl]
      rw [except_ok_bind]
      rw [show jsonToInt (.num mvc) = .ok mvc from rfl, except_ok_bind]
      rw [show jsonItem (combinedMeshMeta ⟨mv, some idx, mvc, mvs, mic, misz⟩)
        (strB "vertex_size") = .ok (.num mvs) from rfl]
      rw [except_ok_bind]
      rw [show jsonToInt (.num mvs) = .ok mvs from rfl, except_ok_bind]
      rw [show jsonItem (combinedMeshMeta ⟨mv, some idx, mvc, mvs, mic, misz⟩)
        (strB "index_count") = .ok (jsonOfOptInt mic) from rfl]
      rw [except_ok_bind]
      rw [jsonToOptInt_ofOptInt, except_ok_bind]
      rw [show jsonItem (combinedMeshMeta ⟨mv, some idx, mvc, mvs, mic, misz⟩)
        (strB "index_size") = .ok (.num misz) from rfl]
      rw [except_ok_bind]
      rw [show jsonToInt (.num misz) = .ok misz from rfl, except_ok_bind]
      rw [hAMD, except_ok_bind]
      rw [loads_dumps _ (combinedArraysMeta_plain arrays hplain)]
      simp only []
      rw [except_ok_bind]
      simp only []
      rw [except_ok_bind]
      rw [mapM_map_ok (fun p => (p.1, arrayMetaJson p.2)) _ (fun p => p) arrays ?_]
      · rw [show List.map (fun p => p) arrays = arrays from List.map_id' arrays,
          except_ok_bind]
        rw [hGEN]
        rfl
      · intro p hp
        obtain ⟨nm, e⟩ := p
        simp only []
        rw [show strB "arrays" ++ strB "/" ++ nm ++ strB ".bin" = combinedBinName nm from rfl]
        rw [show zipRead Z (combinedBinName nm) = .ok e.data by
          unfold zipRead
          rw [hZ, zipFind_append,
            zipFind_singleton_ne _ _ _ (combinedBinName_ne_arraysMeta nm),
            zipFind_append, zipFind_combined_bin arrays hnodup nm e hp]]
        rw [except_ok_bind]
        rw [show jsonItem (arrayMetaJson e) (strB "shape") =
          .ok (.arr (e.shape.map natNum)) from rfl]
        rw [except_ok_bind, jsonToShape_map, except_ok_bind]
        rw [show jsonItem (arrayMetaJson e) (strB "dtype") =
          .ok (.str (dtypeName e.dtype)) from rfl]
        rw [except_ok_bind]
        simp only []
        rw [np_dtype_name, except_ok_bind]
        rw [show jsonItem (arrayMetaJson e) (strB "itemsize") =
          .ok (.num e.itemsize) from rfl]
        rw [except_ok_bind, jsonToNat_natCast, except_ok_bind]
        rfl

/-- C10: with a legacy dictionary, `Mesh.decode` fails with ValidationError
whenever `vertex_count` or `vertex_size` is not supplied; and in legacy mode
it decodes indices only when both the dictionary's `indices` entry is not
None and `index_count` is supplied — in every other case it silently returns
a mesh with no indices rather than an error. -/
theorem mesh_decode_legacy_spec :
    (∀ (d : LegacyDict) (vc vs ic : Option Int) (isz : Int),
      vc = none ∨ vs = none →
      Mesh.decode (.legacy d) vc vs ic isz =
        .error (.validationError
          "vertex_count and vertex_size must be provided when using dictionary format")) ∧
    (∀ (d : LegacyDict) (vc vs : Int) (ic : Option Int) (isz : Int) (v : List Int),
      d.indices = none ∨ ic = none →
      decode_vertex_buffer vc vs d.vertices = .ok v →
      Mesh.decode (.legacy d) (some vc) (some vs) ic isz =
        .ok (Mesh.ofArrays v none)) ∧
    (∀ (d : LegacyDict) (ib : Bytes) (vc vs ic isz : Int) (v i : List Int),
      d.indices = some ib →
      decode_vertex_buffer vc vs d.vertices = .ok v →
      decode_index_buffer ic isz ib = .ok i →
      Mesh.decode (.legacy d) (some vc) (some vs) (some ic) isz =
        .ok (Mesh.ofArrays v (some i))) := by
  refine ⟨?_, ?_, ?_⟩
  · intro d vc vs ic isz h
    rcases h with h | h
    · subst h; cases vs <;> rfl
    · subst h; cases vc <;> rfl
  · intro d vc vs ic isz v h hv
    unfold Mesh.decode
    simp only []
    rw [hv, except_ok_bind]
    rcases h with h | h
    · rw [h]
      cases ic <;> rfl
    · subst h
      cases hd : d.indices <;> rfl
  · intro d ib vc vs ic isz v i hib hv hi
    unfold Mesh.decode
    simp only []
    rw [hv, except_ok_bind, hib]
    simp only []
    rw [hi, except_ok_bind]
    rfl

/-- Concrete instance of the legacy-decode behaviour at a one-element
vertex stream. -/
theorem mesh_decode_legacy_spec_witness :
    (Mesh.decode (.legacy ⟨meshopt_encodeVertexBuffer [5] 1, none⟩) none none none 4 =
      .error (.validationError
        "vertex_count and vertex_size must be provided when using dictionary format")) ∧
    (Mesh.decode (.legacy ⟨meshopt_encodeVertexBuffer [5] 1, none⟩)
        (some 1) (some 1) (some 3) 4 = .ok (Mesh.ofArrays [5] none)) ∧
    (Mesh.decode (.legacy ⟨meshopt_encodeVertexBuffer [5] 1,
        some (meshopt_encodeVertexBuffer [7] 1)⟩)
        (some 1) (some 1) (some 1) 1 = .ok (Mesh.ofArrays [5] (some [7]))) :=
  ⟨mesh_decode_legacy_spec.1 _ none none none 4 (Or.inl rfl),
   mesh_decode_legacy_spec.2.1 _ 1 1 (some 3) 4 [5] (Or.inl rfl) (by rfl),
   mesh_decode_legacy_spec.2.2 _ (meshopt_encodeVertexBuffer [7] 1) 1 1 1 1 [5] [7]
     rfl (by rfl) (by rfl)⟩

/-- Concrete instance of the codec round trip at a one-element float32
array. -/
theorem decode_encode_roundtrip_witness :
    (NDArray.mk [1] .float32 [3]).wf ∧
    (∃ B : NDArray, (encode_array ⟨[1], .float32, [3]⟩).bind decode_array = .ok B ∧
      B.shape = [1] ∧ B.dtype = .float32 ∧
      B.data.length = ([3] : List Int).length ∧
      (Dtype.float32 = .float32 → B.data = [3]) ∧
      (Dtype.float32 ≠ .float32 →
        ((∀ v ∈ ([3] : List Int), roundF32Int v = v) → B.data = [3]) ∧
        ((∀ v ∈ ([3] : List Int), dtypeInRange .float32 (roundF32Int v)) →
          List.Forall₂ (fun b a => 2 ^ 24 * (b - a).natAbs ≤ a.natAbs) B.data [3]))) :=
  ⟨by decide, decode_encode_roundtrip ⟨[1], .float32, [3]⟩ (by decide)⟩

/-- Concrete instance of the encode contract at a one-element float32
array. -/
theorem encode_array_spec_witness :
    encode_array ⟨[1], .float32, [3]⟩ = .ok (encRec ⟨[1], .float32, [3]⟩) ∧
    ((encRec ⟨[1], .float32, [3]⟩).shape = [1] ∧
     (encRec ⟨[1], .float32, [3]⟩).dtype = .float32 ∧
     (encRec ⟨[1], .float32, [3]⟩).itemsize = 4 ∧
     (encRec ⟨[1], .float32, [3]⟩).data =
       meshopt_encodeVertexBuffer (encodeFlattened ⟨[1], .float32, [3]⟩) 4 ∧
     (encRec ⟨[1], .float32, [3]⟩).data.length ≤
       meshopt_encodeVertexBufferBound (encodeFlattened ⟨[1], .float32, [3]⟩).length 4) :=
  ⟨by rfl, (encode_array_spec ⟨[1], .float32, [3]⟩).2 _ (by rfl)⟩

/-- Concrete instance of the single-asset file round trip at an empty
payload. -/
theorem save_load_file_roundtrip_witness :
    (Json.dumps (arrayMetaJson ⟨[], [1], .float32, 4⟩)).length < 2 ^ 32 ∧
    ∃ content, save_encoded_array_to_file ⟨[], [1], .float32, 4⟩ = .ok content ∧
      content = packU32 (Json.dumps (arrayMetaJson ⟨[], [1], .float32, 4⟩)).length ++
        Json.dumps (arrayMetaJson ⟨[], [1], .float32, 4⟩) ++ ([] : Bytes) ∧
      load_encoded_array_from_file content = .ok ⟨[], [1], .float32, 4⟩ :=
  ⟨by decide, save_load_file_roundtrip ⟨[], [1], .float32, 4⟩ (by decide)⟩

/-- Concrete instances of the loader's FormatError conditions: a truncated
prefix and a declared region holding no JSON at all. -/
theorem load_file_format_errors_witness :
    (([] : Bytes).length < 4 ∧
      load_encoded_array_from_file [] = .error .formatError) ∧
    (loads (([] : Bytes).take (unpackU32 1 0 0 0)) = none ∧
      load_encoded_array_from_file [1, 0, 0, 0] = .error .formatError) :=
  ⟨⟨by decide, load_file_format_errors.1 [] (by decide)⟩,
   ⟨rfl, load_file_format_errors.2 1 0 0 0 [] rfl⟩⟩

/-- Concrete instance of the mesh archive round trip with indices and
index count present. -/
theorem mesh_zip_roundtrip_witness :
    load_encoded_mesh_from_zip (save_encoded_mesh_to_zip ⟨[1], some [2], 3, 4, some 5, 4⟩) =
      .ok ⟨[1], some [2], 3, 4, some 5, 4⟩ :=
  (mesh_zip_roundtrip ⟨[1], some [2], 3, 4, some 5, 4⟩).2.2

/-- Concrete instance of the multi-array archive round trip at one
single-element array. -/
theorem arrays_zip_roundtrip_witness :
    ([(strB "a", NDArray.mk [1] .float32 [3])] ≠ []) ∧
    (∀ p ∈ [(strB "a", NDArray.mk [1] .float32 [3])], plainBytes p.1) ∧
    ∃ z res, save_arrays_to_zip [(strB "a", NDArray.mk [1] .float32 [3])] = .ok z ∧
      load_arrays_from_zip z = .ok res ∧
      res.map Prod.fst = [(strB "a", NDArray.mk [1] .float32 [3])].map Prod.fst ∧
      List.Forall₂ (fun q p => q.1 = p.1 ∧
        (encode_array p.2).bind decode_array = .ok q.2) res
        [(strB "a", NDArray.mk [1] .float32 [3])] :=
  ⟨by simp, by decide,
   arrays_zip_roundtrip _ (by simp) (by decide) (by decide) (by decide)⟩

/-- Concrete instance of the combined-save validation: an absent mesh is
refused before the filesystem is touched. -/
theorem save_combined_validation_witness :
    ((none : Option EncodedMesh) = none ∨ ([] : List (Bytes × EncodedArray)) = []) ∧
    ∃ msg, (save_combined_data_to_zip none [] none .missing).1 =
        .error (.validationError msg) ∧
      (save_combined_data_to_zip none [] none .missing).2 = .missing :=
  ⟨Or.inl rfl, (save_combined_validation none [] none .missing).1 (Or.inl rfl)⟩

/-- Concrete instance of the unconditional indices write: saving a mesh
without indices fails as an IOError-wrapped TypeError. -/
theorem save_combined_missing_indices_witness :
    ((⟨[], none, 0, 0, none, 4⟩ : EncodedMesh).indices = none ∧
      [(strB "a", (⟨[], [], .float32, 4⟩ : EncodedArray))] ≠ []) ∧
    save_combined_data_to_zip (some ⟨[], none, 0, 0, none, 4⟩)
        [(strB "a", ⟨[], [], .float32, 4⟩)] none .missing =
      (.error (.ioError .typeError),
        .archive [(strB "mesh" ++ strB "/vertices.bin", [])]) ∧
    ∀ u, (save_combined_data_to_zip (some ⟨[], none, 0, 0, none, 4⟩)
        [(strB "a", ⟨[], [], .float32, 4⟩)] none .missing).1 ≠ .ok u :=
  ⟨⟨rfl, by simp⟩,
   (save_combined_missing_indices ⟨[], none, 0, 0, none, 4⟩
     [(strB "a", ⟨[], [], .float32, 4⟩)] none .missing rfl).1 (by simp),
   (save_combined_missing_indices ⟨[], none, 0, 0, none, 4⟩
     [(strB "a", ⟨[], [], .float32, 4⟩)] none .missing rfl).2⟩

/-- Concrete instance of the combined-bundle round trip without a top-level
metadata entry. -/
theorem load_combined_spec_witness :
    ((⟨[1], some [2], 1, 4, some 1, 4⟩ : EncodedMesh).indices = some [2] ∧
      ([(strB "a", (⟨[3], [1], .float32, 4⟩ : EncodedArray))].map Prod.fst).Nodup) ∧
    ∃ z, save_combined_data_to_zip (some ⟨[1], some [2], 1, 4, some 1, 4⟩)
        [(strB "a", ⟨[3], [1], .float32, 4⟩)] none .missing = (.ok (), .archive z) ∧
      load_combined_data_from_zip (.archive z) =
        .ok (⟨[1], some [2], 1, 4, some 1, 4⟩, [(strB "a", ⟨[3], [1], .float32, 4⟩)], none) :=
  ⟨⟨rfl, by decide⟩,
   load_combined_spec.2.2.2.2.2.2.2 ⟨[1], some [2], 1, 4, some 1, 4⟩ [2]
     [(strB "a", ⟨[3], [1], .float32, 4⟩)] .missing rfl (by decide) (by decide) (by simp)⟩
